import Mathlib

/-!
Verification development for the CUDA boids flocking simulation
(`src/kernel.cu`).  The kernels are shallowly embedded: `glm::vec3`
becomes `Fin 3 → ℝ` (float arithmetic idealised as exact reals), device
arrays become total functions (`ℕ → _` for per-particle arrays, `ℤ → ℤ`
for the per-cell tables, so that an array write is a pointwise function
update), and each CUDA kernel becomes a pure function computing the value
a given thread writes, with whole-array passes expressed as folds over
the thread indices in increasing order.
-/

noncomputable section

open scoped Classical

/-- `glm::vec3`, modelled componentwise over exact reals. -/
abbrev V3 := Fin 3 → ℝ

/-- `glm::dot(v, v)`: squared Euclidean norm. -/
def n2 (v : V3) : ℝ := v 0 ^ 2 + v 1 ^ 2 + v 2 ^ 2

/-- `glm::length`: Euclidean norm. -/
def glen (v : V3) : ℝ := Real.sqrt (n2 v)

/-- `glm::distance p q`: Euclidean distance. -/
def gdist (p q : V3) : ℝ := glen (p - q)

/-- `glm::normalize v = v / length(v)`. -/
def glmNormalize (v : V3) : V3 := (glen v)⁻¹ • v

/-- `#define rule1Distance 5.0f` -/
def rule1Distance : ℝ := 5

/-- `#define rule2Distance 3.0f` -/
def rule2Distance : ℝ := 3

/-- `#define rule3Distance 5.0f` -/
def rule3Distance : ℝ := 5

/-- `#define rule1Scale 0.01f` -/
def rule1Scale : ℝ := 1 / 100

/-- `#define rule2Scale 0.1f` -/
def rule2Scale : ℝ := 1 / 10

/-- `#define rule3Scale 0.1f` -/
def rule3Scale : ℝ := 1 / 10

/-- `#define maxSpeed 1.0f` -/
def maxSpeed : ℝ := 1

/-- `#define scene_scale 100.0f` -/
def scene_scale : ℝ := 100

/-- `computeVelocityChange` (kernel.cu lines 271-319).  The three rule
loops `for (int i = 0; i < N; ++i)` become folds over `List.range N`;
the paired accumulator mirrors the `perceived_center` /
`numInfluencingBoids` variables updated in a single loop body.
Vector-by-int division `v /= n` is `(n : ℝ)⁻¹ • v`, and `v * scale` is
`scale • v`. -/
def computeVelocityChange (N iSelf : ℕ) (pos vel : ℕ → V3) : V3 :=
  let self_pos := pos iSelf
  let self_vel := vel iSelf
  let acc1 := (List.range N).foldl
    (fun (a : V3 × ℕ) i =>
      if i ≠ iSelf ∧ gdist (pos i) self_pos < rule1Distance then (a.1 + pos i, a.2 + 1) else a)
    (0, 0)
  let perceived_center := if 0 < acc1.2 then ((acc1.2 : ℝ))⁻¹ • acc1.1 else acc1.1
  let center := (List.range N).foldl
    (fun (a : V3) i =>
      if i ≠ iSelf ∧ gdist (pos i) self_pos < rule2Distance then a - (pos i - self_pos) else a)
    0
  let acc3 := (List.range N).foldl
    (fun (a : V3 × ℕ) i =>
      if i ≠ iSelf ∧ gdist (pos i) self_pos < rule3Distance then (a.1 + vel i, a.2 + 1) else a)
    (0, 0)
  let perceived_vel := if 0 < acc3.2 then ((acc3.2 : ℝ))⁻¹ • acc3.1 else acc3.1
  self_vel + rule1Scale • (perceived_center - self_pos) + rule2Scale • center
    + rule3Scale • perceived_vel

/-- `kernUpdateVelocityBruteForce` (lines 326-342): the value thread
`idx` writes to `vel2[idx]`. -/
def kernUpdateVelocityBruteForce (N : ℕ) (pos vel1 : ℕ → V3) (idx : ℕ) : V3 :=
  let new_vel_raw := computeVelocityChange N idx pos vel1
  if glen new_vel_raw ≤ maxSpeed then new_vel_raw else maxSpeed • glmNormalize new_vel_raw

/-- One coordinate of the boundary wrap in `kernUpdatePos`: the two
sequential conditional reassignments of lines 360-366. -/
def wrapCoord (x : ℝ) : ℝ :=
  let y := if x < -scene_scale then scene_scale else x
  if y > scene_scale then -scene_scale else y

/-- `kernUpdatePos` (lines 349-369): the value thread `index` writes to
`pos[index]`. -/
def kernUpdatePos (dt : ℝ) (pos vel : ℕ → V3) (index : ℕ) : V3 :=
  let thisPos := pos index + dt • vel index
  fun a => wrapCoord (thisPos a)

/-- The per-particle simulation state: the position buffer and the
current (`dev_vel1`) velocity buffer. -/
structure SimState where
  pos : ℕ → V3
  vel : ℕ → V3

/-- `Boids::stepSimulationNaive` (lines 686-701): brute-force velocity
update into `vel2`, ping-pong swap, then position update reading the
new velocities. -/
def stepSimulationNaive (N : ℕ) (dt : ℝ) (s : SimState) : SimState :=
  let vel2 := fun i => kernUpdateVelocityBruteForce N s.pos s.vel i
  { pos := fun i => kernUpdatePos dt s.pos vel2 i, vel := vel2 }

/-- Rule-1 accumulator loop of `computeVelocityChange`, named for the
decomposition theorems: returns (`perceived_center` before division,
`numInfluencingBoids_rule1`). -/
def rule1Acc (N iSelf : ℕ) (pos : ℕ → V3) : V3 × ℕ :=
  (List.range N).foldl
    (fun (a : V3 × ℕ) i =>
      if i ≠ iSelf ∧ gdist (pos i) (pos iSelf) < rule1Distance then (a.1 + pos i, a.2 + 1) else a)
    (0, 0)

/-- The cohesion contribution `(perceived_center - self_pos) * rule1Scale`. -/
def rule1Term (N iSelf : ℕ) (pos : ℕ → V3) : V3 :=
  let a := rule1Acc N iSelf pos
  rule1Scale • ((if 0 < a.2 then ((a.2 : ℝ))⁻¹ • a.1 else a.1) - pos iSelf)

/-- Rule-2 accumulator loop of `computeVelocityChange` (`center`). -/
def rule2Acc (N iSelf : ℕ) (pos : ℕ → V3) : V3 :=
  (List.range N).foldl
    (fun (a : V3) i =>
      if i ≠ iSelf ∧ gdist (pos i) (pos iSelf) < rule2Distance then a - (pos i - pos iSelf) else a)
    0

/-- The separation contribution `center * rule2Scale`. -/
def rule2Term (N iSelf : ℕ) (pos : ℕ → V3) : V3 := rule2Scale • rule2Acc N iSelf pos

/-- Rule-3 accumulator loop of `computeVelocityChange`: returns
(`perceived_vel` before division, `numInfluencingBoids_rule3`). -/
def rule3Acc (N iSelf : ℕ) (pos vel : ℕ → V3) : V3 × ℕ :=
  (List.range N).foldl
    (fun (a : V3 × ℕ) i =>
      if i ≠ iSelf ∧ gdist (pos i) (pos iSelf) < rule3Distance then (a.1 + vel i, a.2 + 1) else a)
    (0, 0)

/-- The alignment contribution `perceived_vel * rule3Scale`. -/
def rule3Term (N iSelf : ℕ) (pos vel : ℕ → V3) : V3 :=
  let a := rule3Acc N iSelf pos vel
  rule3Scale • (if 0 < a.2 then ((a.2 : ℝ))⁻¹ • a.1 else a.1)

theorem computeVelocityChange_eq (N iSelf : ℕ) (pos vel : ℕ → V3) :
    computeVelocityChange N iSelf pos vel
      = vel iSelf + rule1Term N iSelf pos + rule2Term N iSelf pos + rule3Term N iSelf pos vel := by
  rfl

theorem n2_nonneg (v : V3) : 0 ≤ n2 v := by
  have h0 := sq_nonneg (v 0)
  have h1 := sq_nonneg (v 1)
  have h2 := sq_nonneg (v 2)
  simp only [n2]; linarith

theorem glen_nonneg (v : V3) : 0 ≤ glen v := Real.sqrt_nonneg _

/-- `glm::distance p q < r` is, in exact arithmetic, the squared-distance
comparison. -/
theorem gdist_lt_iff {r : ℝ} (hr : 0 < r) (p q : V3) :
    gdist p q < r ↔ n2 (p - q) < r ^ 2 := Real.sqrt_lt' hr

theorem glen_le_iff {r : ℝ} (hr : 0 ≤ r) (v : V3) :
    glen v ≤ r ↔ n2 v ≤ r ^ 2 := by
  constructor
  · intro h
    have := Real.sq_sqrt (n2_nonneg v)
    calc n2 v = Real.sqrt (n2 v) ^ 2 := this.symm
      _ ≤ r ^ 2 := by
          have := glen_nonneg v
          simpa [glen] using pow_le_pow_left₀ this h 2
  · intro h
    have : Real.sqrt (n2 v) ≤ Real.sqrt (r ^ 2) := Real.sqrt_le_sqrt h
    simpa [glen, Real.sqrt_sq hr] using this

theorem n2_smul (c : ℝ) (v : V3) : n2 (c • v) = c ^ 2 * n2 v := by
  simp only [n2, Pi.smul_apply, smul_eq_mul]; ring

theorem glen_smul (c : ℝ) (v : V3) : glen (c • v) = |c| * glen v := by
  rw [glen, n2_smul, Real.sqrt_mul (sq_nonneg c), Real.sqrt_sq_eq_abs, glen]

/-- The rescale branch of the speed clamp: exact magnitude `maxSpeed`,
direction preserved (a positive multiple of the raw vector). -/
theorem clamp_rescale (v : V3) (h : maxSpeed < glen v) :
    maxSpeed • glmNormalize v = (maxSpeed / glen v) • v ∧
      glen (maxSpeed • glmNormalize v) = maxSpeed ∧ 0 < maxSpeed / glen v := by
  have hms : (0:ℝ) < maxSpeed := by norm_num [maxSpeed]
  have hL : 0 < glen v := lt_trans hms h
  have heq : maxSpeed • glmNormalize v = (maxSpeed / glen v) • v := by
    rw [glmNormalize, smul_smul, div_eq_mul_inv]
  refine ⟨heq, ?_, div_pos hms hL⟩
  rw [heq, glen_smul, abs_of_pos (div_pos hms hL), div_mul_cancel₀ _ (ne_of_gt hL)]

/-- Characterization of `wrapCoord` (lines 360-366 of `kernUpdatePos`). -/
theorem wrapCoord_spec (x : ℝ) :
    (x < -scene_scale → wrapCoord x = scene_scale) ∧
      (x > scene_scale → wrapCoord x = -scene_scale) ∧
      (-scene_scale ≤ x → x ≤ scene_scale → wrapCoord x = x) := by
  refine ⟨fun h => ?_, fun h => ?_, fun h1 h2 => ?_⟩
  · simp only [wrapCoord, scene_scale] at h ⊢
    split_ifs with h1 h2 <;> linarith
  · simp only [wrapCoord, scene_scale] at h ⊢
    split_ifs with hc hd <;> linarith
  · simp only [wrapCoord, scene_scale] at h1 h2 ⊢
    split_ifs with ha hb <;> linarith

/-- Generic evaluation of the paired sum/count accumulation loops: a fold
with guard `p` equals the initial accumulator plus the sum of the
summand over the guard-filtered index list, paired with the count. -/
theorem foldl_filter_sum_count {p : ℕ → Prop} [DecidablePred p] (f : ℕ → V3) :
    ∀ (l : List ℕ) (a : V3) (n : ℕ),
      l.foldl (fun acc i => if p i then (acc.1 + f i, acc.2 + 1) else acc) (a, n)
        = (a + ((l.filter fun i => decide (p i)).map f).sum,
            n + (l.filter fun i => decide (p i)).length)
  | [], a, n => by simp
  | i :: t, a, n => by
    rw [List.foldl_cons]
    by_cases hp : p i
    · rw [if_pos hp, foldl_filter_sum_count f t (a + f i) (n + 1),
        List.filter_cons_of_pos (by simpa using hp), List.map_cons, List.sum_cons,
        List.length_cons]
      simp only [Prod.mk.injEq]
      exact ⟨by abel, by omega⟩
    · rw [if_neg hp, List.filter_cons_of_neg (by simpa using hp)]
      exact foldl_filter_sum_count f t a n

/-- Generic evaluation of the subtracting accumulation loop (rule 2). -/
theorem foldl_filter_sub {p : ℕ → Prop} [DecidablePred p] (f : ℕ → V3) :
    ∀ (l : List ℕ) (a : V3),
      l.foldl (fun acc i => if p i then acc - f i else acc) a
        = a - ((l.filter fun i => decide (p i)).map f).sum
  | [], a => by simp
  | i :: t, a => by
    rw [List.foldl_cons]
    by_cases hp : p i
    · rw [if_pos hp, foldl_filter_sub f t (a - f i),
        List.filter_cons_of_pos (by simpa using hp), List.map_cons, List.sum_cons]
      abel
    · rw [if_neg hp, List.filter_cons_of_neg (by simpa using hp)]
      exact foldl_filter_sub f t a

/-- `gridCellWidth = 2.0f * max(max(rule1Distance, rule2Distance), rule3Distance)`
(`Boids::initSimulation`, line 171). -/
def gridCellWidth : ℝ := 2 * max (max rule1Distance rule2Distance) rule3Distance

/-- `halfSideCount = (int)(scene_scale / gridCellWidth) + 1` (line 173); the
C cast truncates, which on this nonnegative value is the floor. -/
def halfSideCount : ℤ := ⌊scene_scale / gridCellWidth⌋ + 1

/-- `gridSideCount = 2 * halfSideCount` (line 174). -/
def gridSideCount : ℤ := 2 * halfSideCount

/-- `gridCellCount = gridSideCount³` (line 176). -/
def gridCellCount : ℤ := gridSideCount * gridSideCount * gridSideCount

/-- `gridInverseCellWidth = 1.0f / gridCellWidth` (line 177). -/
def gridInverseCellWidth : ℝ := 1 / gridCellWidth

/-- `halfGridWidth = gridCellWidth * halfSideCount` (line 178). -/
def halfGridWidth : ℝ := gridCellWidth * (halfSideCount : ℝ)

/-- `gridMinimum`: the zero-initialised global decremented by
`halfGridWidth` on each axis (lines 179-181). -/
def gridMinimum : V3 := fun _ => 0 - halfGridWidth

theorem gridCellWidth_eq : gridCellWidth = 10 := by
  rw [gridCellWidth, rule1Distance, rule2Distance, rule3Distance]
  norm_num

theorem halfSideCount_eq : halfSideCount = 11 := by
  rw [halfSideCount, gridCellWidth_eq, scene_scale]
  norm_num

theorem gridSideCount_eq : gridSideCount = 22 := by
  rw [gridSideCount, halfSideCount_eq]; norm_num

theorem gridCellCount_eq : gridCellCount = 10648 := by
  rw [gridCellCount, gridSideCount_eq]; norm_num

theorem gridInverseCellWidth_eq : gridInverseCellWidth = 1 / 10 := by
  rw [gridInverseCellWidth, gridCellWidth_eq]

theorem gridMinimum_eq (a : Fin 3) : gridMinimum a = -110 := by
  rw [gridMinimum, halfGridWidth, gridCellWidth_eq, halfSideCount_eq]
  norm_num

/-- `gridIndex3Dto1D` (lines 377-379). -/
def gridIndex3Dto1D (x y z gridResolution : ℤ) : ℤ :=
  x + y * gridResolution + z * gridResolution * gridResolution

/-- `gridIndex3D` (lines 381-385): componentwise
`floor((pos - gridMin) * inverseCellWidth)` cast to ints. -/
def gridIndex3D (pos gridMin : V3) (inverseCellWidth : ℝ) : Fin 3 → ℤ :=
  fun a => ⌊(pos a - gridMin a) * inverseCellWidth⌋

/-- `gridIndex1D` (lines 387-393). -/
def gridIndex1D (pos gridMin : V3) (inverseCellWidth : ℝ) (gridResolution : ℤ) : ℤ :=
  gridIndex3Dto1D (gridIndex3D pos gridMin inverseCellWidth 0)
    (gridIndex3D pos gridMin inverseCellWidth 1)
    (gridIndex3D pos gridMin inverseCellWidth 2) gridResolution

/-- `glm::round`: round to nearest, halves away from zero (as `std::round`). -/
def glmRound (x : ℝ) : ℤ := if x < 0 then -⌊-x + 1 / 2⌋ else ⌊x + 1 / 2⌋

/-- `kernComputeIndices` (lines 395-411): returns the
(`indices`, `gridIndices`) arrays it fills — the identity particle index
and the 1D grid-cell id of each particle. -/
def kernComputeIndices (gridResolution : ℤ) (gridMin : V3) (inverseCellWidth : ℝ)
    (pos : ℕ → V3) : (ℕ → ℕ) × (ℕ → ℤ) :=
  (fun idx => idx, fun idx => gridIndex1D (pos idx) gridMin inverseCellWidth gridResolution)

/-- `kernResetIntBuffer` (lines 415-420): entries `0 ≤ index < N` are set
to `value`; an `ℤ → ℤ` function models the int array indexed by cell id. -/
def kernResetIntBuffer (N : ℤ) (intBuffer : ℤ → ℤ) (value : ℤ) : ℤ → ℤ :=
  fun index => if 0 ≤ index ∧ index < N then value else intBuffer index

/-- The body of thread `idx` of `kernIdentifyCellStartEnd`
(lines 423-450), acting on the (start, end) table pair. -/
def identifyStep (N : ℕ) (particleGridIndices : ℕ → ℤ) (se : (ℤ → ℤ) × (ℤ → ℤ))
    (idx : ℕ) : (ℤ → ℤ) × (ℤ → ℤ) :=
  let particleGridIdx := particleGridIndices idx
  let prev : ℤ := if 0 < idx then particleGridIndices (idx - 1) else -1
  let next : ℤ := if idx < N - 1 then particleGridIndices (idx + 1) else -1
  let s := if idx = 0 ∨ particleGridIdx ≠ prev then
      (fun c => if c = particleGridIdx then (idx : ℤ) else se.1 c) else se.1
  let e := if idx = N - 1 ∨ particleGridIdx ≠ next then
      (fun c => if c = particleGridIdx then (idx : ℤ) else se.2 c) else se.2
  (s, e)

/-- `kernIdentifyCellStartEnd` (lines 423-450): the race-free parallel
pass sequentialised as a fold over the thread indices. -/
def kernIdentifyCellStartEnd (N : ℕ) (particleGridIndices : ℕ → ℤ)
    (start0 end0 : ℤ → ℤ) : (ℤ → ℤ) × (ℤ → ℤ) :=
  (List.range N).foldl (identifyStep N particleGridIndices) (start0, end0)

/-- Modelled from the spec: `thrust::sort_by_key` (section 4.2 of the
spec; the library itself is external to this repository).  The sort is
deterministic and value-oblivious: the applied permutation is computed
from the key array alone (here: a stable merge sort of the slot indices
by key) and the same permutation is applied to keys and values. -/
def sortSlots (N : ℕ) (key : ℕ → ℤ) : List ℕ :=
  (List.range N).mergeSort fun i j => decide (key i ≤ key j)

/-- The sort permutation as a function on slots: slot `j` of the sorted
arrays holds entry `sortPermF N key j` of the unsorted arrays (identity
beyond `N`, where the arrays have no entries). -/
def sortPermF (N : ℕ) (key : ℕ → ℤ) : ℕ → ℕ :=
  fun j => (sortSlots N key).getD j j

/-- Modelled from the spec: the result of `thrust::sort_by_key` on the
key array `key` and value array `vals` of length `N` — both arrays
permuted by the key-determined sort permutation. -/
def thrustSortByKey {α : Type} (N : ℕ) (key : ℕ → ℤ) (vals : ℕ → α) : (ℕ → ℤ) × (ℕ → α) :=
  (fun j => key (sortPermF N key j), fun j => vals (sortPermF N key j))

/-- `biasAlongAxes` (lines 470-475 and 588-593): initialised to `-1` per
axis, set to `1` on axis `i` when the rounded cell coordinate differs
from the floored one. -/
def biasAlongAxes (boid_pos gridMin : V3) (inverseCellWidth : ℝ) : Fin 3 → ℤ :=
  fun i =>
    if glmRound ((boid_pos i - gridMin i) * inverseCellWidth)
        ≠ gridIndex3D boid_pos gridMin inverseCellWidth i then 1 else -1

/-- The 8 candidate cell ids enumerated by the z-y-x step loops
(lines 479-494 and 597-612), in loop order. -/
def neighborCellList (boid_pos gridMin : V3) (inverseCellWidth : ℝ)
    (gridResolution : ℤ) : List ℤ :=
  let boid_gridPos := gridIndex3D boid_pos gridMin inverseCellWidth
  let bias := biasAlongAxes boid_pos gridMin inverseCellWidth
  (List.range 2).flatMap fun zStep =>
    (List.range 2).flatMap fun yStep =>
      (List.range 2).map fun xStep =>
        gridIndex3Dto1D (boid_gridPos 0 + (xStep : ℤ) * bias 0)
          (boid_gridPos 1 + (yStep : ℤ) * bias 1)
          (boid_gridPos 2 + (zStep : ℤ) * bias 2) gridResolution

/-- `valid_neighbor_idx_list`: the candidate cells whose start index is
nonnegative (the `gridCellStartIndices[grid_idx] >= 0` test of
lines 489 and 607), in loop order. -/
def validNeighborList (boid_pos gridMin : V3) (inverseCellWidth : ℝ)
    (gridResolution : ℤ) (gridCellStartIndices : ℤ → ℤ) : List ℤ :=
  (neighborCellList boid_pos gridMin inverseCellWidth gridResolution).filter
    fun c => decide (0 ≤ gridCellStartIndices c)

/-- The slots visited by `for (j = cell_boid_start_idx; j <= cell_boid_end_idx; ++j)`,
as array subscripts; the int bounds are nonnegative whenever the loop is
entered (the cell passed the `start >= 0` filter). -/
def slotRange (a b : ℤ) : List ℕ :=
  (List.range (b + 1 - a).toNat).map fun k => a.toNat + k

/-- The pre-clamp velocity computed by `kernUpdateVelNeighborSearchScattered`
(lines 452-559): the three rule loops over the valid neighbor cells,
reading true particle ids through `particleArrayIndices`. -/
def scatteredRawVel (gridResolution : ℤ) (gridMin : V3) (inverseCellWidth : ℝ)
    (gridCellStartIndices gridCellEndIndices : ℤ → ℤ) (particleArrayIndices : ℕ → ℕ)
    (pos vel1 : ℕ → V3) (idx : ℕ) : V3 :=
  let boid_pos := pos idx
  let valid_neighbor_idx_list :=
    validNeighborList boid_pos gridMin inverseCellWidth gridResolution gridCellStartIndices
  let boid_vel := vel1 idx
  let acc1 := valid_neighbor_idx_list.foldl
    (fun (a : V3 × ℕ) cell_idx =>
      (slotRange (gridCellStartIndices cell_idx) (gridCellEndIndices cell_idx)).foldl
        (fun (a2 : V3 × ℕ) j =>
          if particleArrayIndices j ≠ idx ∧
              gdist (pos (particleArrayIndices j)) boid_pos < rule1Distance then
            (a2.1 + pos (particleArrayIndices j), a2.2 + 1)
          else a2) a)
    (0, 0)
  let perceived_center := if 0 < acc1.2 then ((acc1.2 : ℝ))⁻¹ • acc1.1 else acc1.1
  let center := valid_neighbor_idx_list.foldl
    (fun (a : V3) cell_idx =>
      (slotRange (gridCellStartIndices cell_idx) (gridCellEndIndices cell_idx)).foldl
        (fun (a2 : V3) j =>
          if particleArrayIndices j ≠ idx ∧
              gdist (pos (particleArrayIndices j)) boid_pos < rule2Distance then
            a2 - (pos (particleArrayIndices j) - boid_pos)
          else a2) a)
    0
  let acc3 := valid_neighbor_idx_list.foldl
    (fun (a : V3 × ℕ) cell_idx =>
      (slotRange (gridCellStartIndices cell_idx) (gridCellEndIndices cell_idx)).foldl
        (fun (a2 : V3 × ℕ) j =>
          if particleArrayIndices j ≠ idx ∧
              gdist (pos (particleArrayIndices j)) boid_pos < rule3Distance then
            (a2.1 + vel1 (particleArrayIndices j), a2.2 + 1)
          else a2) a)
    (0, 0)
  let perceived_vel := if 0 < acc3.2 then ((acc3.2 : ℝ))⁻¹ • acc3.1 else acc3.1
  boid_vel + rule1Scale • (perceived_center - boid_pos) + rule2Scale • center
    + rule3Scale • perceived_vel

/-- `kernUpdateVelNeighborSearchScattered` (lines 452-569): raw rule
composition followed by the speed clamp of lines 561-567. -/
def kernUpdateVelNeighborSearchScattered (gridResolution : ℤ) (gridMin : V3)
    (inverseCellWidth : ℝ) (gridCellStartIndices gridCellEndIndices : ℤ → ℤ)
    (particleArrayIndices : ℕ → ℕ) (pos vel1 : ℕ → V3) (idx : ℕ) : V3 :=
  let new_vel := scatteredRawVel gridResolution gridMin inverseCellWidth
    gridCellStartIndices gridCellEndIndices particleArrayIndices pos vel1 idx
  if glen new_vel > maxSpeed then maxSpeed • glmNormalize new_vel else new_vel

/-- The pre-clamp velocity computed by `kernUpdateVelNeighborSearchCoherent`
(lines 571-671): as the scattered kernel but with the sorted slot `j`
used directly as the index into the (reordered) `pos`/`vel1` arrays. -/
def coherentRawVel (gridResolution : ℤ) (gridMin : V3) (inverseCellWidth : ℝ)
    (gridCellStartIndices gridCellEndIndices : ℤ → ℤ) (pos vel1 : ℕ → V3) (idx : ℕ) : V3 :=
  let boid_pos := pos idx
  let valid_neighbor_idx_list :=
    validNeighborList boid_pos gridMin inverseCellWidth gridResolution gridCellStartIndices
  let boid_vel := vel1 idx
  let acc1 := valid_neighbor_idx_list.foldl
    (fun (a : V3 × ℕ) cell_idx =>
      (slotRange (gridCellStartIndices cell_idx) (gridCellEndIndices cell_idx)).foldl
        (fun (a2 : V3 × ℕ) j =>
          if j ≠ idx ∧ gdist (pos j) boid_pos < rule1Distance then
            (a2.1 + pos j, a2.2 + 1)
          else a2) a)
    (0, 0)
  let perceived_center := if 0 < acc1.2 then ((acc1.2 : ℝ))⁻¹ • acc1.1 else acc1.1
  let center := valid_neighbor_idx_list.foldl
    (fun (a : V3) cell_idx =>
      (slotRange (gridCellStartIndices cell_idx) (gridCellEndIndices cell_idx)).foldl
        (fun (a2 : V3) j =>
          if j ≠ idx ∧ gdist (pos j) boid_pos < rule2Distance then
            a2 - (pos j - boid_pos)
          else a2) a)
    0
  let acc3 := valid_neighbor_idx_list.foldl
    (fun (a : V3 × ℕ) cell_idx =>
      (slotRange (gridCellStartIndices cell_idx) (gridCellEndIndices cell_idx)).foldl
        (fun (a2 : V3 × ℕ) j =>
          if j ≠ idx ∧ gdist (pos j) boid_pos < rule3Distance then
            (a2.1 + vel1 j, a2.2 + 1)
          else a2) a)
    (0, 0)
  let perceived_vel := if 0 < acc3.2 then ((acc3.2 : ℝ))⁻¹ • acc3.1 else acc3.1
  boid_vel + rule1Scale • (perceived_center - boid_pos) + rule2Scale • center
    + rule3Scale • perceived_vel

/-- `kernUpdateVelNeighborSearchCoherent` (lines 571-681): raw rule
composition followed by the speed clamp of lines 673-676. -/
def kernUpdateVelNeighborSearchCoherent (gridResolution : ℤ) (gridMin : V3)
    (inverseCellWidth : ℝ) (gridCellStartIndices gridCellEndIndices : ℤ → ℤ)
    (pos vel1 : ℕ → V3) (idx : ℕ) : V3 :=
  let new_vel := coherentRawVel gridResolution gridMin inverseCellWidth
    gridCellStartIndices gridCellEndIndices pos vel1 idx
  if glen new_vel > maxSpeed then maxSpeed • glmNormalize new_vel else new_vel

/-- The cell start/end tables built by `stepSimulationScatteredGrid`
(and identically by `stepSimulationCoherentGrid`): reset both tables to
`-1`, label the particles, sort the keys, and extract the cell ranges.
`start0`/`end0` are the arbitrary prior contents of the two tables. -/
def buildCellTables (N : ℕ) (start0 end0 : ℤ → ℤ) (pos : ℕ → V3) : (ℤ → ℤ) × (ℤ → ℤ) :=
  let s1 := kernResetIntBuffer gridCellCount start0 (-1)
  let e1 := kernResetIntBuffer gridCellCount end0 (-1)
  let gridIndices := (kernComputeIndices gridSideCount gridMinimum gridInverseCellWidth pos).2
  let sortedGridIndices := (thrustSortByKey N gridIndices
    (kernComputeIndices gridSideCount gridMinimum gridInverseCellWidth pos).1).1
  kernIdentifyCellStartEnd N sortedGridIndices s1 e1

/-- `Boids::stepSimulationScatteredGrid` (lines 703-756): reset, label,
sort-by-key, cell-range extraction, scattered velocity update, ping-pong
swap, position update. -/
def stepSimulationScatteredGrid (N : ℕ) (dt : ℝ) (start0 end0 : ℤ → ℤ)
    (s : SimState) : SimState :=
  let gridIndices := (kernComputeIndices gridSideCount gridMinimum gridInverseCellWidth s.pos).2
  let arrayIndices := (kernComputeIndices gridSideCount gridMinimum gridInverseCellWidth s.pos).1
  let sortedArrayIndices := (thrustSortByKey N gridIndices arrayIndices).2
  let tables := buildCellTables N start0 end0 s.pos
  let vel2 := fun i => kernUpdateVelNeighborSearchScattered gridSideCount gridMinimum
    gridInverseCellWidth tables.1 tables.2 sortedArrayIndices s.pos s.vel i
  { pos := fun i => kernUpdatePos dt s.pos vel2 i, vel := vel2 }

/-- `Boids::stepSimulationCoherentGrid` (lines 758-829): as the scattered
step, but the position and current-velocity arrays are themselves sorted
by grid-index key (using the copies `dev_posGridIndices` and
`dev_velGridIndices` of the unsorted key array made on lines 778-781)
before the coherent velocity update. -/
def stepSimulationCoherentGrid (N : ℕ) (dt : ℝ) (start0 end0 : ℤ → ℤ)
    (s : SimState) : SimState :=
  let gridIndices := (kernComputeIndices gridSideCount gridMinimum gridInverseCellWidth s.pos).2
  let tables := buildCellTables N start0 end0 s.pos
  let posGridIndices := gridIndices
  let velGridIndices := gridIndices
  let sortedPos := (thrustSortByKey N posGridIndices s.pos).2
  let sortedVel := (thrustSortByKey N velGridIndices s.vel).2
  let vel2 := fun i => kernUpdateVelNeighborSearchCoherent gridSideCount gridMinimum
    gridInverseCellWidth tables.1 tables.2 sortedPos sortedVel i
  { pos := fun i => kernUpdatePos dt sortedPos vel2 i, vel := vel2 }

/-- The pre-clamp velocity feeding the scattered step's clamp, with the
step's actual table/index arguments filled in. -/
def scatteredStepRaw (N : ℕ) (start0 end0 : ℤ → ℤ) (s : SimState) (i : ℕ) : V3 :=
  scatteredRawVel gridSideCount gridMinimum gridInverseCellWidth
    (buildCellTables N start0 end0 s.pos).1 (buildCellTables N start0 end0 s.pos).2
    (thrustSortByKey N (kernComputeIndices gridSideCount gridMinimum gridInverseCellWidth s.pos).2
      (kernComputeIndices gridSideCount gridMinimum gridInverseCellWidth s.pos).1).2
    s.pos s.vel i

/-- The pre-clamp velocity feeding the coherent step's clamp. -/
def coherentStepRaw (N : ℕ) (start0 end0 : ℤ → ℤ) (s : SimState) (i : ℕ) : V3 :=
  coherentRawVel gridSideCount gridMinimum gridInverseCellWidth
    (buildCellTables N start0 end0 s.pos).1 (buildCellTables N start0 end0 s.pos).2
    (thrustSortByKey N (kernComputeIndices gridSideCount gridMinimum gridInverseCellWidth s.pos).2
      s.pos).2
    (thrustSortByKey N (kernComputeIndices gridSideCount gridMinimum gridInverseCellWidth s.pos).2
      s.vel).2 i

theorem stepScattered_vel_eq (N : ℕ) (dt : ℝ) (start0 end0 : ℤ → ℤ) (s : SimState) (i : ℕ) :
    (stepSimulationScatteredGrid N dt start0 end0 s).vel i
      = if glen (scatteredStepRaw N start0 end0 s i) > maxSpeed then
          maxSpeed • glmNormalize (scatteredStepRaw N start0 end0 s i)
        else scatteredStepRaw N start0 end0 s i := rfl

theorem stepCoherent_vel_eq (N : ℕ) (dt : ℝ) (start0 end0 : ℤ → ℤ) (s : SimState) (i : ℕ) :
    (stepSimulationCoherentGrid N dt start0 end0 s).vel i
      = if glen (coherentStepRaw N start0 end0 s i) > maxSpeed then
          maxSpeed • glmNormalize (coherentStepRaw N start0 end0 s i)
        else coherentStepRaw N start0 end0 s i := rfl

theorem clampGrid_le (v : V3) :
    glen (if glen v > maxSpeed then maxSpeed • glmNormalize v else v) ≤ maxSpeed := by
  by_cases h : glen v > maxSpeed
  · rw [if_pos h, (clamp_rescale v h).2.1]
  · rw [if_neg h]; exact le_of_not_lt h

theorem clampBrute_le (v : V3) :
    glen (if glen v ≤ maxSpeed then v else maxSpeed • glmNormalize v) ≤ maxSpeed := by
  by_cases h : glen v ≤ maxSpeed
  · rwa [if_pos h]
  · rw [if_neg h, (clamp_rescale v (lt_of_not_le h)).2.1]

theorem clampGrid_cases (v : V3) :
    (glen v ≤ maxSpeed → (if glen v > maxSpeed then maxSpeed • glmNormalize v else v) = v) ∧
      (maxSpeed < glen v →
        (if glen v > maxSpeed then maxSpeed • glmNormalize v else v) = (maxSpeed / glen v) • v ∧
          glen (if glen v > maxSpeed then maxSpeed • glmNormalize v else v) = maxSpeed) := by
  constructor
  · intro h; rw [if_neg (not_lt.mpr h)]
  · intro h; rw [if_pos h]
    exact ⟨(clamp_rescale v h).1, (clamp_rescale v h).2.1⟩

theorem clampBrute_cases (v : V3) :
    (glen v ≤ maxSpeed → (if glen v ≤ maxSpeed then v else maxSpeed • glmNormalize v) = v) ∧
      (maxSpeed < glen v →
        (if glen v ≤ maxSpeed then v else maxSpeed • glmNormalize v) = (maxSpeed / glen v) • v ∧
          glen (if glen v ≤ maxSpeed then v else maxSpeed • glmNormalize v) = maxSpeed) := by
  constructor
  · intro h; rw [if_pos h]
  · intro h; rw [if_neg (not_le.mpr h)]
    exact ⟨(clamp_rescale v h).1, (clamp_rescale v h).2.1⟩

/-- C5: after every step, for every particle under every strategy, the
velocity magnitude is at most `maxSpeed`; the clamp leaves the raw
rule-composed velocity unchanged when its magnitude is within the cap
and otherwise rescales it, direction preserving, to magnitude exactly
`maxSpeed`. -/
theorem speed_cap_invariant (N : ℕ) (dt : ℝ) (start0 end0 : ℤ → ℤ) (s : SimState) (i : ℕ) :
    (glen ((stepSimulationNaive N dt s).vel i) ≤ maxSpeed ∧
      glen ((stepSimulationScatteredGrid N dt start0 end0 s).vel i) ≤ maxSpeed ∧
      glen ((stepSimulationCoherentGrid N dt start0 end0 s).vel i) ≤ maxSpeed) ∧
    ((glen (computeVelocityChange N i s.pos s.vel) ≤ maxSpeed →
        (stepSimulationNaive N dt s).vel i = computeVelocityChange N i s.pos s.vel) ∧
      (maxSpeed < glen (computeVelocityChange N i s.pos s.vel) →
        (stepSimulationNaive N dt s).vel i
            = (maxSpeed / glen (computeVelocityChange N i s.pos s.vel)) •
                computeVelocityChange N i s.pos s.vel ∧
          glen ((stepSimulationNaive N dt s).vel i) = maxSpeed)) ∧
    ((glen (scatteredStepRaw N start0 end0 s i) ≤ maxSpeed →
        (stepSimulationScatteredGrid N dt start0 end0 s).vel i = scatteredStepRaw N start0 end0 s i) ∧
      (maxSpeed < glen (scatteredStepRaw N start0 end0 s i) →
        (stepSimulationScatteredGrid N dt start0 end0 s).vel i
            = (maxSpeed / glen (scatteredStepRaw N start0 end0 s i)) • scatteredStepRaw N start0 end0 s i ∧
          glen ((stepSimulationScatteredGrid N dt start0 end0 s).vel i) = maxSpeed)) ∧
    ((glen (coherentStepRaw N start0 end0 s i) ≤ maxSpeed →
        (stepSimulationCoherentGrid N dt start0 end0 s).vel i = coherentStepRaw N start0 end0 s i) ∧
      (maxSpeed < glen (coherentStepRaw N start0 end0 s i) →
        (stepSimulationCoherentGrid N dt start0 end0 s).vel i
            = (maxSpeed / glen (coherentStepRaw N start0 end0 s i)) • coherentStepRaw N start0 end0 s i ∧
          glen ((stepSimulationCoherentGrid N dt start0 end0 s).vel i) = maxSpeed)) := by
  refine ⟨⟨?_, ?_, ?_⟩, ?_, ?_, ?_⟩
  · exact clampBrute_le (computeVelocityChange N i s.pos s.vel)
  · rw [stepScattered_vel_eq N dt start0 end0 s i]
    exact clampGrid_le (scatteredStepRaw N start0 end0 s i)
  · rw [stepCoherent_vel_eq N dt start0 end0 s i]
    exact clampGrid_le (coherentStepRaw N start0 end0 s i)
  · exact clampBrute_cases (computeVelocityChange N i s.pos s.vel)
  · rw [stepScattered_vel_eq N dt start0 end0 s i]
    exact clampGrid_cases (scatteredStepRaw N start0 end0 s i)
  · rw [stepCoherent_vel_eq N dt start0 end0 s i]
    exact clampGrid_cases (coherentStepRaw N start0 end0 s i)

/-- Cohesion contribution of the scattered kernel (lines 499-522). -/
def scatteredRule1Term (gridResolution : ℤ) (gridMin : V3) (inverseCellWidth : ℝ)
    (gridCellStartIndices gridCellEndIndices : ℤ → ℤ) (particleArrayIndices : ℕ → ℕ)
    (pos : ℕ → V3) (idx : ℕ) : V3 :=
  let boid_pos := pos idx
  let valid_neighbor_idx_list :=
    validNeighborList boid_pos gridMin inverseCellWidth gridResolution gridCellStartIndices
  let acc1 := valid_neighbor_idx_list.foldl
    (fun (a : V3 × ℕ) cell_idx =>
      (slotRange (gridCellStartIndices cell_idx) (gridCellEndIndices cell_idx)).foldl
        (fun (a2 : V3 × ℕ) j =>
          if particleArrayIndices j ≠ idx ∧
              gdist (pos (particleArrayIndices j)) boid_pos < rule1Distance then
            (a2.1 + pos (particleArrayIndices j), a2.2 + 1)
          else a2) a)
    (0, 0)
  rule1Scale • ((if 0 < acc1.2 then ((acc1.2 : ℝ))⁻¹ • acc1.1 else acc1.1) - boid_pos)

/-- Separation contribution of the scattered kernel (lines 524-538). -/
def scatteredRule2Term (gridResolution : ℤ) (gridMin : V3) (inverseCellWidth : ℝ)
    (gridCellStartIndices gridCellEndIndices : ℤ → ℤ) (particleArrayIndices : ℕ → ℕ)
    (pos : ℕ → V3) (idx : ℕ) : V3 :=
  let boid_pos := pos idx
  let valid_neighbor_idx_list :=
    validNeighborList boid_pos gridMin inverseCellWidth gridResolution gridCellStartIndices
  let center := valid_neighbor_idx_list.foldl
    (fun (a : V3) cell_idx =>
      (slotRange (gridCellStartIndices cell_idx) (gridCellEndIndices cell_idx)).foldl
        (fun (a2 : V3) j =>
          if particleArrayIndices j ≠ idx ∧
              gdist (pos (particleArrayIndices j)) boid_pos < rule2Distance then
            a2 - (pos (particleArrayIndices j) - boid_pos)
          else a2) a)
    0
  rule2Scale • center

/-- Alignment contribution of the scattered kernel (lines 540-559). -/
def scatteredRule3Term (gridResolution : ℤ) (gridMin : V3) (inverseCellWidth : ℝ)
    (gridCellStartIndices gridCellEndIndices : ℤ → ℤ) (particleArrayIndices : ℕ → ℕ)
    (pos vel1 : ℕ → V3) (idx : ℕ) : V3 :=
  let boid_pos := pos idx
  let valid_neighbor_idx_list :=
    validNeighborList boid_pos gridMin inverseCellWidth gridResolution gridCellStartIndices
  let acc3 := valid_neighbor_idx_list.foldl
    (fun (a : V3 × ℕ) cell_idx =>
      (slotRange (gridCellStartIndices cell_idx) (gridCellEndIndices cell_idx)).foldl
        (fun (a2 : V3 × ℕ) j =>
          if particleArrayIndices j ≠ idx ∧
              gdist (pos (particleArrayIndices j)) boid_pos < rule3Distance then
            (a2.1 + vel1 (particleArrayIndices j), a2.2 + 1)
          else a2) a)
    (0, 0)
  rule3Scale • (if 0 < acc3.2 then ((acc3.2 : ℝ))⁻¹ • acc3.1 else acc3.1)

/-- Cohesion contribution of the coherent kernel (lines 617-638). -/
def coherentRule1Term (gridResolution : ℤ) (gridMin : V3) (inverseCellWidth : ℝ)
    (gridCellStartIndices gridCellEndIndices : ℤ → ℤ) (pos : ℕ → V3) (idx : ℕ) : V3 :=
  let boid_pos := pos idx
  let valid_neighbor_idx_list :=
    validNeighborList boid_pos gridMin inverseCellWidth gridResolution gridCellStartIndices
  let acc1 := valid_neighbor_idx_list.foldl
    (fun (a : V3 × ℕ) cell_idx =>
      (slotRange (gridCellStartIndices cell_idx) (gridCellEndIndices cell_idx)).foldl
        (fun (a2 : V3 × ℕ) j =>
          if j ≠ idx ∧ gdist (pos j) boid_pos < rule1Distance then
            (a2.1 + pos j, a2.2 + 1)
          else a2) a)
    (0, 0)
  rule1Scale • ((if 0 < acc1.2 then ((acc1.2 : ℝ))⁻¹ • acc1.1 else acc1.1) - boid_pos)

/-- Separation contribution of the coherent kernel (lines 640-652). -/
def coherentRule2Term (gridResolution : ℤ) (gridMin : V3) (inverseCellWidth : ℝ)
    (gridCellStartIndices gridCellEndIndices : ℤ → ℤ) (pos : ℕ → V3) (idx : ℕ) : V3 :=
  let boid_pos := pos idx
  let valid_neighbor_idx_list :=
    validNeighborList boid_pos gridMin inverseCellWidth gridResolution gridCellStartIndices
  let center := valid_neighbor_idx_list.foldl
    (fun (a : V3) cell_idx =>
      (slotRange (gridCellStartIndices cell_idx) (gridCellEndIndices cell_idx)).foldl
        (fun (a2 : V3) j =>
          if j ≠ idx ∧ gdist (pos j) boid_pos < rule2Distance then
            a2 - (pos j - boid_pos)
          else a2) a)
    0
  rule2Scale • center

/-- Alignment contribution of the coherent kernel (lines 654-671). -/
def coherentRule3Term (gridResolution : ℤ) (gridMin : V3) (inverseCellWidth : ℝ)
    (gridCellStartIndices gridCellEndIndices : ℤ → ℤ) (pos vel1 : ℕ → V3) (idx : ℕ) : V3 :=
  let boid_pos := pos idx
  let valid_neighbor_idx_list :=
    validNeighborList boid_pos gridMin inverseCellWidth gridResolution gridCellStartIndices
  let acc3 := valid_neighbor_idx_list.foldl
    (fun (a : V3 × ℕ) cell_idx =>
      (slotRange (gridCellStartIndices cell_idx) (gridCellEndIndices cell_idx)).foldl
        (fun (a2 : V3 × ℕ) j =>
          if j ≠ idx ∧ gdist (pos j) boid_pos < rule3Distance then
            (a2.1 + vel1 j, a2.2 + 1)
          else a2) a)
    (0, 0)
  rule3Scale • (if 0 < acc3.2 then ((acc3.2 : ℝ))⁻¹ • acc3.1 else acc3.1)

/-- C10: under every strategy the pre-clamp velocity is the particle's
current (old) velocity plus the sum of the three rule contributions —
the accumulation starts from the old velocity, not from zero. -/
theorem raw_velocity_starts_from_old_velocity (N iSelf : ℕ) (gridResolution : ℤ)
    (gridMin : V3) (inverseCellWidth : ℝ) (gridCellStartIndices gridCellEndIndices : ℤ → ℤ)
    (particleArrayIndices : ℕ → ℕ) (pos vel : ℕ → V3) (idx : ℕ) :
    computeVelocityChange N iSelf pos vel
        = vel iSelf + rule1Term N iSelf pos + rule2Term N iSelf pos
            + rule3Term N iSelf pos vel ∧
      scatteredRawVel gridResolution gridMin inverseCellWidth gridCellStartIndices
          gridCellEndIndices particleArrayIndices pos vel idx
        = vel idx + scatteredRule1Term gridResolution gridMin inverseCellWidth
              gridCellStartIndices gridCellEndIndices particleArrayIndices pos idx
            + scatteredRule2Term gridResolution gridMin inverseCellWidth
              gridCellStartIndices gridCellEndIndices particleArrayIndices pos idx
            + scatteredRule3Term gridResolution gridMin inverseCellWidth
              gridCellStartIndices gridCellEndIndices particleArrayIndices pos vel idx ∧
      coherentRawVel gridResolution gridMin inverseCellWidth gridCellStartIndices
          gridCellEndIndices pos vel idx
        = vel idx + coherentRule1Term gridResolution gridMin inverseCellWidth
              gridCellStartIndices gridCellEndIndices pos idx
            + coherentRule2Term gridResolution gridMin inverseCellWidth
              gridCellStartIndices gridCellEndIndices pos idx
            + coherentRule3Term gridResolution gridMin inverseCellWidth
              gridCellStartIndices gridCellEndIndices pos vel idx := by
  exact ⟨rfl, rfl, rfl⟩

theorem glen_zero : glen (0 : V3) = 0 := by
  simp [glen, n2]

theorem stepNaive_vel_apply (N : ℕ) (dt : ℝ) (s : SimState) (i : ℕ) :
    (stepSimulationNaive N dt s).vel i = kernUpdateVelocityBruteForce N s.pos s.vel i := rfl

theorem stepNaive_pos_apply (N : ℕ) (dt : ℝ) (s : SimState) (i : ℕ) (a : Fin 3) :
    (stepSimulationNaive N dt s).pos i a
      = wrapCoord (s.pos i a + dt * kernUpdateVelocityBruteForce N s.pos s.vel i a) := rfl

theorem kernUpdateVelocityBruteForce_eq (N : ℕ) (pos vel1 : ℕ → V3) (idx : ℕ) :
    kernUpdateVelocityBruteForce N pos vel1 idx
      = if glen (computeVelocityChange N idx pos vel1) ≤ maxSpeed
        then computeVelocityChange N idx pos vel1
        else maxSpeed • glmNormalize (computeVelocityChange N idx pos vel1) := rfl

theorem wrapCoord_zero : wrapCoord 0 = 0 :=
  (wrapCoord_spec 0).2.2 (by norm_num [scene_scale]) (by norm_num [scene_scale])

theorem rule1Acc_no_neighbor {N i : ℕ} {pos : ℕ → V3}
    (h : ∀ k, k < N → k ≠ i → ¬ gdist (pos k) (pos i) < rule1Distance) :
    rule1Acc N i pos = (0, 0) := by
  rw [rule1Acc, foldl_filter_sum_count]
  have hf : ((List.range N).filter
      fun k => decide (k ≠ i ∧ gdist (pos k) (pos i) < rule1Distance)) = [] := by
    rw [List.filter_eq_nil_iff]
    intro k hk
    simp only [decide_eq_true_eq, not_and]
    exact fun hki => h k (List.mem_range.mp hk) hki
  rw [hf]
  simp

theorem rule2Acc_no_neighbor {N i : ℕ} {pos : ℕ → V3}
    (h : ∀ k, k < N → k ≠ i → ¬ gdist (pos k) (pos i) < rule2Distance) :
    rule2Acc N i pos = 0 := by
  rw [rule2Acc, foldl_filter_sub]
  have hf : ((List.range N).filter
      fun k => decide (k ≠ i ∧ gdist (pos k) (pos i) < rule2Distance)) = [] := by
    rw [List.filter_eq_nil_iff]
    intro k hk
    simp only [decide_eq_true_eq, not_and]
    exact fun hki => h k (List.mem_range.mp hk) hki
  rw [hf]
  simp

theorem rule3Acc_no_neighbor {N i : ℕ} {pos vel : ℕ → V3}
    (h : ∀ k, k < N → k ≠ i → ¬ gdist (pos k) (pos i) < rule3Distance) :
    rule3Acc N i pos vel = (0, 0) := by
  rw [rule3Acc, foldl_filter_sum_count]
  have hf : ((List.range N).filter
      fun k => decide (k ≠ i ∧ gdist (pos k) (pos i) < rule3Distance)) = [] := by
    rw [List.filter_eq_nil_iff]
    intro k hk
    simp only [decide_eq_true_eq, not_and]
    exact fun hki => h k (List.mem_range.mp hk) hki
  rw [hf]
  simp

/-- With a single particle (`N = 1`) the three rule accumulators are
empty: only index 0 is scanned and the self-exclusion guard rejects it. -/
theorem cvc_single_zero (pos vel : ℕ → V3) (h0 : pos 0 = 0) (hv : vel 0 = 0) :
    computeVelocityChange 1 0 pos vel = 0 := by
  rw [computeVelocityChange_eq]
  have h1 : rule1Acc 1 0 pos = (0, 0) := by simp [rule1Acc, List.range_succ, List.range_zero]
  have h2 : rule2Acc 1 0 pos = 0 := by simp [rule2Acc, List.range_succ, List.range_zero]
  have h3 : rule3Acc 1 0 pos vel = (0, 0) := by simp [rule3Acc, List.range_succ, List.range_zero]
  simp only [rule1Term, rule2Term, rule3Term, h1, h2, h3]
  simp [h0, hv]

theorem stepNaive_single_fixed (dt : ℝ) (s : SimState) (h0 : s.pos 0 = 0)
    (hv : s.vel 0 = 0) :
    (stepSimulationNaive 1 dt s).pos 0 = 0 ∧ (stepSimulationNaive 1 dt s).vel 0 = 0 := by
  have hcvc := cvc_single_zero s.pos s.vel h0 hv
  have hvel : kernUpdateVelocityBruteForce 1 s.pos s.vel 0 = 0 := by
    rw [kernUpdateVelocityBruteForce_eq, hcvc, glen_zero, if_pos (by norm_num [maxSpeed])]
  constructor
  · funext a
    rw [stepNaive_pos_apply, hvel]
    simp only [h0, Pi.zero_apply, mul_zero, add_zero, wrapCoord_zero]
  · exact hvel

/-- C2 counterexample: a single particle at `(50,0,0)` with zero velocity
has zero neighbors within every rule radius, yet the rule-1 term is
`(-1/2, 0, 0)` (the code adds `(perceived_center - self_pos) * rule1Scale`
even when no neighbor qualified, and `perceived_center` is then the
origin), so after one naive step its velocity is nonzero and its position
moves. -/
theorem isolated_particle_counterexample :
    rule1Term 1 0 (fun _ => ![50, 0, 0]) = ![-(1/2), 0, 0] ∧
      rule1Term 1 0 (fun _ => ![50, 0, 0]) ≠ 0 ∧
      (stepSimulationNaive 1 1 ⟨fun _ => ![50, 0, 0], fun _ => 0⟩).vel 0 ≠ 0 ∧
      (stepSimulationNaive 1 1 ⟨fun _ => ![50, 0, 0], fun _ => 0⟩).pos 0 ≠ ![50, 0, 0] := by
  have h1 : rule1Acc 1 0 (fun _ => ![50, 0, 0]) = (0, 0) := by
    simp [rule1Acc, List.range_succ, List.range_zero]
  have hT : rule1Term 1 0 (fun _ => ![50, 0, 0]) = ![-(1/2), 0, 0] := by
    simp only [rule1Term, h1]
    funext a
    fin_cases a <;> simp [rule1Scale] <;> norm_num
  have h2 : rule2Acc 1 0 (fun _ => ![50, 0, 0]) = 0 := by
    simp [rule2Acc, List.range_succ, List.range_zero]
  have h3 : rule3Acc 1 0 (fun _ => ![50, 0, 0]) (fun _ => (0 : V3)) = (0, 0) := by
    simp [rule3Acc, List.range_succ, List.range_zero]
  have hcvc : computeVelocityChange 1 0 (fun _ => ![50, 0, 0]) (fun _ => (0 : V3))
      = ![-(1/2), 0, 0] := by
    rw [computeVelocityChange_eq, hT]
    simp only [rule2Term, rule3Term, h2, h3]
    funext a
    fin_cases a <;> simp <;> norm_num
  have hglen : glen (![-(1/2), 0, 0] : V3) ≤ maxSpeed := by
    rw [glen_le_iff (by norm_num [maxSpeed])]
    simp [n2, maxSpeed]
    norm_num
  have hvelK : kernUpdateVelocityBruteForce 1 (fun _ => ![50, 0, 0]) (fun _ => (0:V3)) 0
      = ![-(1/2), 0, 0] := by
    rw [kernUpdateVelocityBruteForce_eq, hcvc, if_pos hglen]
  have hvel : (stepSimulationNaive 1 1 ⟨fun _ => ![50, 0, 0], fun _ => 0⟩).vel 0
      = ![-(1/2), 0, 0] := by
    rw [stepNaive_vel_apply]
    exact hvelK
  have hpos : (stepSimulationNaive 1 1 ⟨fun _ => ![50, 0, 0], fun _ => 0⟩).pos 0 0
      = 99 / 2 := by
    rw [stepNaive_pos_apply]
    show wrapCoord ((fun _ : ℕ => (![50, 0, 0] : V3)) 0 0
      + 1 * kernUpdateVelocityBruteForce 1 (fun _ => ![50, 0, 0]) (fun _ => (0:V3)) 0 0) = 99 / 2
    rw [hvelK]
    have hx : (fun _ : ℕ => (![50, 0, 0] : V3)) 0 0
        + 1 * (![-(1/2), 0, 0] : V3) 0 = 99 / 2 := by
      simp
      norm_num
    rw [hx]
    exact (wrapCoord_spec (99/2)).2.2 (by norm_num [scene_scale]) (by norm_num [scene_scale])
  refine ⟨hT, ?_, ?_, ?_⟩
  · rw [hT]
    intro h
    have := congrFun h 0
    simp at this
  · rw [hvel]
    intro h
    have := congrFun h 0
    simp at this
  · intro h
    rw [h] at hpos
    simp at hpos
    norm_num at hpos

/-- C2 amended: with zero qualifying neighbors the separation and
alignment terms are exactly zero, but the cohesion term is
`rule1Scale • (0 - self_pos)` (zero only for a particle at the origin);
consequently a single particle at the origin with zero velocity keeps
zero velocity and an unchanged position after every naive step. -/
theorem zero_neighbor_terms_amended (N i : ℕ) (pos vel : ℕ → V3) :
    ((∀ k, k < N → k ≠ i → ¬ gdist (pos k) (pos i) < rule1Distance) →
        rule1Term N i pos = rule1Scale • (0 - pos i)) ∧
      ((∀ k, k < N → k ≠ i → ¬ gdist (pos k) (pos i) < rule2Distance) →
        rule2Term N i pos = 0) ∧
      ((∀ k, k < N → k ≠ i → ¬ gdist (pos k) (pos i) < rule3Distance) →
        rule3Term N i pos vel = 0) ∧
      (∀ s : SimState, s.pos 0 = 0 → s.vel 0 = 0 → ∀ (dt : ℝ) (k : ℕ),
        ((stepSimulationNaive 1 dt)^[k] s).pos 0 = 0 ∧
          ((stepSimulationNaive 1 dt)^[k] s).vel 0 = 0) := by
  refine ⟨fun h => ?_, fun h => ?_, fun h => ?_, fun s h0 hv dt k => ?_⟩
  · simp [rule1Term, rule1Acc_no_neighbor h]
  · simp [rule2Term, rule2Acc_no_neighbor h]
  · simp [rule3Term, rule3Acc_no_neighbor h]
  · induction k generalizing s with
    | zero => exact ⟨h0, hv⟩
    | succ n ih =>
      rw [Function.iterate_succ_apply]
      exact ih _ (stepNaive_single_fixed dt s h0 hv).1 (stepNaive_single_fixed dt s h0 hv).2

/-- Witness for the amended C2 at a concrete configuration. -/
theorem zero_neighbor_terms_amended_witness :
    rule2Term 1 0 (fun _ => ![50, 0, 0]) = 0 ∧
      rule1Term 1 0 (fun _ => ![50, 0, 0]) = rule1Scale • (0 - ![50, 0, 0]) ∧
      ((stepSimulationNaive 1 1)^[3] ⟨fun _ => 0, fun _ => 0⟩).pos 0 = 0 := by
  have h := zero_neighbor_terms_amended 1 0 (fun _ => ![50, 0, 0]) (fun _ => 0)
  refine ⟨h.2.1 ?_, h.1 ?_, ?_⟩
  · intro k hk hk0
    interval_cases k
    exact absurd rfl hk0
  · intro k hk hk0
    interval_cases k
    exact absurd rfl hk0
  · exact ((zero_neighbor_terms_amended 1 0 (fun _ => 0) (fun _ => 0)).2.2.2
      ⟨fun _ => 0, fun _ => 0⟩ rfl rfl 1 3).1

/-- Positions of the spec's concrete scenario: particle A at the origin,
particle B at `(1,0,0)`. -/
def posAB : ℕ → V3 := fun i => if i = 0 then 0 else ![1, 0, 0]

/-- Velocities of the spec's concrete scenario: both zero. -/
def velAB : ℕ → V3 := fun _ => 0

theorem posAB_zero : posAB 0 = 0 := rfl

theorem posAB_one : posAB 1 = ![1, 0, 0] := rfl

/-- C4: in the two-particle scenario, cohesion contributes `(0.01,0,0)`,
separation contributes `(-0.1,0,0)`, alignment contributes zero, the raw
new velocity of A is exactly `(-0.09,0,0)`, its magnitude is below
`maxSpeed`, and the clamp leaves it unchanged. -/
theorem concrete_two_particle_scenario :
    rule1Term 2 0 posAB = ![1/100, 0, 0] ∧
      rule2Term 2 0 posAB = ![-(1/10), 0, 0] ∧
      rule3Term 2 0 posAB velAB = 0 ∧
      computeVelocityChange 2 0 posAB velAB = ![-(9/100), 0, 0] ∧
      glen (computeVelocityChange 2 0 posAB velAB) ≤ maxSpeed ∧
      kernUpdateVelocityBruteForce 2 posAB velAB 0 = computeVelocityChange 2 0 posAB velAB := by
  have hn2 : n2 (posAB 1 - posAB 0) = 1 := by
    rw [posAB_zero, posAB_one]
    simp [n2]
  have hg1 : gdist (posAB 1) (posAB 0) < rule1Distance := by
    rw [gdist_lt_iff (by norm_num [rule1Distance]), hn2]
    norm_num [rule1Distance]
  have hg2 : gdist (posAB 1) (posAB 0) < rule2Distance := by
    rw [gdist_lt_iff (by norm_num [rule2Distance]), hn2]
    norm_num [rule2Distance]
  have hg3 : gdist (posAB 1) (posAB 0) < rule3Distance := by
    rw [gdist_lt_iff (by norm_num [rule3Distance]), hn2]
    norm_num [rule3Distance]
  have hacc1 : rule1Acc 2 0 posAB = (![1, 0, 0], 1) := by
    rw [rule1Acc, show List.range 2 = [0, 1] from rfl, List.foldl_cons, List.foldl_cons,
      List.foldl_nil, if_pos ⟨by norm_num, hg1⟩, if_neg (by simp)]
    rw [posAB_one]
    simp
  have hacc2 : rule2Acc 2 0 posAB = -![1, 0, 0] := by
    rw [rule2Acc, show List.range 2 = [0, 1] from rfl, List.foldl_cons, List.foldl_cons,
      List.foldl_nil, if_pos ⟨by norm_num, hg2⟩, if_neg (by simp)]
    rw [posAB_one, posAB_zero]
    simp
  have hacc3 : rule3Acc 2 0 posAB velAB = (0, 1) := by
    rw [rule3Acc, show List.range 2 = [0, 1] from rfl, List.foldl_cons, List.foldl_cons,
      List.foldl_nil, if_pos ⟨by norm_num, hg3⟩, if_neg (by simp)]
    simp [velAB]
  have ht1 : rule1Term 2 0 posAB = ![1/100, 0, 0] := by
    simp only [rule1Term, hacc1, posAB_zero]
    funext a
    fin_cases a <;> simp [rule1Scale] <;> norm_num
  have ht2 : rule2Term 2 0 posAB = ![-(1/10), 0, 0] := by
    simp only [rule2Term, hacc2]
    funext a
    fin_cases a <;> simp [rule2Scale] <;> norm_num
  have ht3 : rule3Term 2 0 posAB velAB = 0 := by
    simp only [rule3Term, hacc3]
    simp
  have hcvc : computeVelocityChange 2 0 posAB velAB = ![-(9/100), 0, 0] := by
    rw [computeVelocityChange_eq, ht1, ht2, ht3]
    funext a
    fin_cases a <;> simp [velAB] <;> norm_num
  have hglen : glen (computeVelocityChange 2 0 posAB velAB) ≤ maxSpeed := by
    rw [hcvc, glen_le_iff (by norm_num [maxSpeed])]
    simp [n2, maxSpeed]
    norm_num [abs_le]
  refine ⟨ht1, ht2, ht3, hcvc, hglen, ?_⟩
  rw [kernUpdateVelocityBruteForce_eq, if_pos hglen]

/-- The write condition of the `gridCellStartIndices` update of thread
`idx` in `kernIdentifyCellStartEnd`, at cell `c`. -/
def startCond (K : ℕ → ℤ) (c : ℤ) (idx : ℕ) : Prop :=
  (idx = 0 ∨ K idx ≠ (if 0 < idx then K (idx - 1) else -1)) ∧ K idx = c

/-- The write condition of the `gridCellEndIndices` update of thread
`idx` in `kernIdentifyCellStartEnd`, at cell `c`. -/
def endCond (N : ℕ) (K : ℕ → ℤ) (c : ℤ) (idx : ℕ) : Prop :=
  (idx = N - 1 ∨ K idx ≠ (if idx < N - 1 then K (idx + 1) else -1)) ∧ K idx = c

theorem identifyStep_fst (N : ℕ) (K : ℕ → ℤ) (se : (ℤ → ℤ) × (ℤ → ℤ)) (idx : ℕ) (c : ℤ) :
    (identifyStep N K se idx).1 c = if startCond K c idx then (idx : ℤ) else se.1 c := by
  simp only [identifyStep, startCond]
  by_cases h1 : idx = 0 ∨ K idx ≠ (if 0 < idx then K (idx - 1) else -1)
  · rw [if_pos h1]
    by_cases h2 : K idx = c
    · rw [if_pos h2.symm, if_pos ⟨h1, h2⟩]
    · rw [if_neg fun hc => h2 hc.symm, if_neg fun hc => h2 hc.2]
  · rw [if_neg h1, if_neg fun hc => h1 hc.1]

theorem identifyStep_snd (N : ℕ) (K : ℕ → ℤ) (se : (ℤ → ℤ) × (ℤ → ℤ)) (idx : ℕ) (c : ℤ) :
    (identifyStep N K se idx).2 c = if endCond N K c idx then (idx : ℤ) else se.2 c := by
  simp only [identifyStep, endCond]
  by_cases h1 : idx = N - 1 ∨ K idx ≠ (if idx < N - 1 then K (idx + 1) else -1)
  · rw [if_pos h1]
    by_cases h2 : K idx = c
    · rw [if_pos h2.symm, if_pos ⟨h1, h2⟩]
    · rw [if_neg fun hc => h2 hc.symm, if_neg fun hc => h2 hc.2]
  · rw [if_neg h1, if_neg fun hc => h1 hc.1]

theorem identify_foldl_fst (N : ℕ) (K : ℕ → ℤ) :
    ∀ (l : List ℕ) (se : (ℤ → ℤ) × (ℤ → ℤ)) (c : ℤ),
      (l.foldl (identifyStep N K) se).1 c
        = l.foldl (fun acc idx => if startCond K c idx then (idx : ℤ) else acc) (se.1 c)
  | [], se, c => rfl
  | idx :: t, se, c => by
    rw [List.foldl_cons, List.foldl_cons, identify_foldl_fst N K t _ c, identifyStep_fst]

theorem identify_foldl_snd (N : ℕ) (K : ℕ → ℤ) :
    ∀ (l : List ℕ) (se : (ℤ → ℤ) × (ℤ → ℤ)) (c : ℤ),
      (l.foldl (identifyStep N K) se).2 c
        = l.foldl (fun acc idx => if endCond N K c idx then (idx : ℤ) else acc) (se.2 c)
  | [], se, c => rfl
  | idx :: t, se, c => by
    rw [List.foldl_cons, List.foldl_cons, identify_foldl_snd N K t _ c, identifyStep_snd]

/-- A conditional-overwrite fold whose condition holds for exactly one
element of the list yields that element's write. -/
theorem foldl_update_unique {p : ℕ → Prop} [DecidablePred p] (g : ℕ → ℤ) :
    ∀ (l : List ℕ) (a : ℤ) (w : ℕ), w ∈ l → p w → (∀ x, x ∈ l → p x → x = w) →
      l.foldl (fun acc idx => if p idx then g idx else acc) a = g w
  | [], a, w, hw, _, _ => absurd hw (List.not_mem_nil w)
  | idx :: t, a, w, hw, hpw, huniq => by
    rw [List.foldl_cons]
    by_cases hm : w ∈ t
    · exact foldl_update_unique g t _ w hm hpw fun x hx hpx => huniq x (List.mem_cons_of_mem _ hx) hpx
    · have hwi : w = idx := by
        rcases List.mem_cons.mp hw with h | h
        · exact h
        · exact absurd h hm
      subst hwi
      rw [if_pos hpw]
      have : ∀ x, x ∈ t → ¬ p x := fun x hx hpx =>
        hm (huniq x (List.mem_cons_of_mem _ hx) hpx ▸ hx)
      clear hw hpw huniq hm
      induction t with
      | nil => rfl
      | cons y t2 ih =>
        rw [List.foldl_cons, if_neg (this y (List.mem_cons_self y t2))]
        exact ih fun x hx hpx => this x (List.mem_cons_of_mem _ hx) hpx

/-- A conditional-overwrite fold whose condition never holds leaves the
initial value. -/
theorem foldl_update_none {p : ℕ → Prop} [DecidablePred p] (g : ℕ → ℤ) :
    ∀ (l : List ℕ) (a : ℤ), (∀ x, x ∈ l → ¬ p x) →
      l.foldl (fun acc idx => if p idx then g idx else acc) a = a
  | [], a, _ => rfl
  | idx :: t, a, h => by
    rw [List.foldl_cons, if_neg (h idx (List.mem_cons_self idx t))]
    exact foldl_update_none g t a fun x hx => h x (List.mem_cons_of_mem _ hx)

/-- The occurrence set of cell id `c` in the first `N` keys. -/
def occSet (N : ℕ) (K : ℕ → ℤ) (c : ℤ) : Finset ℕ :=
  (Finset.range N).filter fun j => K j = c

theorem occSet_mem {N : ℕ} {K : ℕ → ℤ} {c : ℤ} {j : ℕ} :
    j ∈ occSet N K c ↔ j < N ∧ K j = c := by
  simp [occSet]

theorem startCond_iff_min {N : ℕ} {K : ℕ → ℤ} {c : ℤ}
    (hsort : ∀ i j, i ≤ j → j < N → K i ≤ K j) (hne : (occSet N K c).Nonempty)
    {idx : ℕ} (hidx : idx < N) :
    startCond K c idx ↔ idx = (occSet N K c).min' hne := by
  have hminS := (occSet N K c).min'_mem hne
  have hminN := (occSet_mem.mp hminS).1
  have hminK := (occSet_mem.mp hminS).2
  constructor
  · rintro ⟨hor, hKc⟩
    by_contra hne2
    have hmem : idx ∈ occSet N K c := occSet_mem.mpr ⟨hidx, hKc⟩
    have hlt : (occSet N K c).min' hne < idx :=
      lt_of_le_of_ne ((occSet N K c).min'_le idx hmem) (Ne.symm hne2)
    have h0 : 0 < idx := by omega
    rcases hor with h | h
    · omega
    · rw [if_pos (by omega : 0 < idx)] at h
      have hle1 : (occSet N K c).min' hne ≤ idx - 1 := by omega
      have hq1 : K ((occSet N K c).min' hne) ≤ K (idx - 1) := hsort _ _ hle1 (by omega)
      have hq2 : K (idx - 1) ≤ K idx := hsort _ _ (by omega) hidx
      rw [hminK, hKc] at *
      exact h (le_antisymm hq2 (by rw [← hKc]; exact hminK ▸ hq1)).symm
  · intro he
    subst he
    refine ⟨?_, hminK⟩
    by_cases h0 : (occSet N K c).min' hne = 0
    · exact Or.inl h0
    · refine Or.inr ?_
      rw [if_pos (by omega : 0 < (occSet N K c).min' hne)]
      intro heq
      have hmem : (occSet N K c).min' hne - 1 ∈ occSet N K c :=
        occSet_mem.mpr ⟨by omega, by rw [← heq, hminK]⟩
      have := (occSet N K c).min'_le _ hmem
      omega

theorem endCond_iff_max {N : ℕ} {K : ℕ → ℤ} {c : ℤ}
    (hsort : ∀ i j, i ≤ j → j < N → K i ≤ K j) (hne : (occSet N K c).Nonempty)
    {idx : ℕ} (hidx : idx < N) :
    endCond N K c idx ↔ idx = (occSet N K c).max' hne := by
  have hmaxS := (occSet N K c).max'_mem hne
  have hmaxN := (occSet_mem.mp hmaxS).1
  have hmaxK := (occSet_mem.mp hmaxS).2
  constructor
  · rintro ⟨hor, hKc⟩
    by_contra hne2
    have hmem : idx ∈ occSet N K c := occSet_mem.mpr ⟨hidx, hKc⟩
    have hlt : idx < (occSet N K c).max' hne :=
      lt_of_le_of_ne ((occSet N K c).le_max' idx hmem) hne2
    rcases hor with h | h
    · omega
    · rw [if_pos (by omega : idx < N - 1)] at h
      have hle1 : idx + 1 ≤ (occSet N K c).max' hne := by omega
      have hq1 : K idx ≤ K (idx + 1) := hsort _ _ (by omega) (by omega)
      have hq2 : K (idx + 1) ≤ K ((occSet N K c).max' hne) := hsort _ _ hle1 hmaxN
      rw [hmaxK] at hq2
      rw [hKc] at hq1
      exact h (by rw [hKc]; exact (le_antisymm hq2 hq1).symm)
  · intro he
    subst he
    refine ⟨?_, hmaxK⟩
    by_cases hN1 : (occSet N K c).max' hne = N - 1
    · exact Or.inl hN1
    · refine Or.inr ?_
      rw [if_pos (by omega : (occSet N K c).max' hne < N - 1)]
      intro heq
      have hmem : (occSet N K c).max' hne + 1 ∈ occSet N K c :=
        occSet_mem.mpr ⟨by omega, by rw [← heq, hmaxK]⟩
      have := (occSet N K c).le_max' _ hmem
      omega

/-- C7: for a non-decreasing key array of length `N ≥ 1` with both
tables reset to the sentinel `-1`, the cell-range pass records, for each
cell id present in the keys, inclusive bounds `[f, l]` such that a slot
index carries key `c` exactly when it lies in `[f, l]`; cells absent
from the keys keep start = end = `-1`. -/
theorem cell_range_extraction (N : ℕ) (K : ℕ → ℤ) (hN : 1 ≤ N)
    (hsort : ∀ i j, i ≤ j → j < N → K i ≤ K j) :
    ∀ c : ℤ,
      ((∃ i, i < N ∧ K i = c) →
        ∃ f l : ℕ, f < N ∧ l < N ∧ f ≤ l ∧
          (kernIdentifyCellStartEnd N K (fun _ => -1) (fun _ => -1)).1 c = (f : ℤ) ∧
          (kernIdentifyCellStartEnd N K (fun _ => -1) (fun _ => -1)).2 c = (l : ℤ) ∧
          (∀ j, j < N → ((f ≤ j ∧ j ≤ l) ↔ K j = c))) ∧
      ((∀ i, i < N → K i ≠ c) →
        (kernIdentifyCellStartEnd N K (fun _ => -1) (fun _ => -1)).1 c = -1 ∧
        (kernIdentifyCellStartEnd N K (fun _ => -1) (fun _ => -1)).2 c = -1) := by
  intro c
  constructor
  · rintro ⟨i, hi, hKi⟩
    have hne : (occSet N K c).Nonempty := ⟨i, occSet_mem.mpr ⟨hi, hKi⟩⟩
    set f := (occSet N K c).min' hne with hf
    set l := (occSet N K c).max' hne with hl
    have hfS := occSet_mem.mp ((occSet N K c).min'_mem hne)
    have hlS := occSet_mem.mp ((occSet N K c).max'_mem hne)
    refine ⟨f, l, hfS.1, hlS.1, (occSet N K c).min'_le l (occSet_mem.mpr hlS), ?_, ?_, ?_⟩
    · rw [kernIdentifyCellStartEnd, identify_foldl_fst]
      exact foldl_update_unique (fun idx => (idx : ℤ)) (List.range N) (-1) f
        (List.mem_range.mpr hfS.1)
        ((startCond_iff_min hsort hne hfS.1).mpr rfl)
        fun x hx hpx => (startCond_iff_min hsort hne (List.mem_range.mp hx)).mp hpx
    · rw [kernIdentifyCellStartEnd, identify_foldl_snd]
      exact foldl_update_unique (fun idx => (idx : ℤ)) (List.range N) (-1) l
        (List.mem_range.mpr hlS.1)
        ((endCond_iff_max hsort hne hlS.1).mpr rfl)
        fun x hx hpx => (endCond_iff_max hsort hne (List.mem_range.mp hx)).mp hpx
    · intro j hj
      constructor
      · rintro ⟨hfj, hjl⟩
        have h1 : K f ≤ K j := hsort _ _ hfj hj
        have h2 : K j ≤ K l := hsort _ _ hjl hlS.1
        rw [hfS.2] at h1
        rw [hlS.2] at h2
        exact le_antisymm h2 h1
      · intro hKj
        have hmem : j ∈ occSet N K c := occSet_mem.mpr ⟨hj, hKj⟩
        exact ⟨(occSet N K c).min'_le j hmem, (occSet N K c).le_max' j hmem⟩
  · intro habs
    constructor
    · rw [kernIdentifyCellStartEnd, identify_foldl_fst]
      exact foldl_update_none (fun idx => (idx : ℤ)) (List.range N) (-1)
        fun x hx hpx => habs x (List.mem_range.mp hx) hpx.2
    · rw [kernIdentifyCellStartEnd, identify_foldl_snd]
      exact foldl_update_none (fun idx => (idx : ℤ)) (List.range N) (-1)
        fun x hx hpx => habs x (List.mem_range.mp hx) hpx.2

/-- Witness for the cell-range pass on the concrete sorted key array
`[2, 5, 5]`. -/
theorem cell_range_extraction_witness :
    ((∃ i, i < 3 ∧ (fun j => if j = 0 then (2:ℤ) else 5) i = (5:ℤ)) →
      ∃ f l : ℕ, f < 3 ∧ l < 3 ∧ f ≤ l ∧
        (kernIdentifyCellStartEnd 3 (fun j => if j = 0 then (2:ℤ) else 5)
          (fun _ => -1) (fun _ => -1)).1 5 = (f : ℤ) ∧
        (kernIdentifyCellStartEnd 3 (fun j => if j = 0 then (2:ℤ) else 5)
          (fun _ => -1) (fun _ => -1)).2 5 = (l : ℤ) ∧
        (∀ j, j < 3 → ((f ≤ j ∧ j ≤ l) ↔ (fun j => if j = 0 then (2:ℤ) else 5) j = 5))) ∧
      ((∀ i, i < 3 → (fun j => if j = 0 then (2:ℤ) else 5) i ≠ (5:ℤ)) →
        (kernIdentifyCellStartEnd 3 (fun j => if j = 0 then (2:ℤ) else 5)
          (fun _ => -1) (fun _ => -1)).1 5 = -1 ∧
        (kernIdentifyCellStartEnd 3 (fun j => if j = 0 then (2:ℤ) else 5)
          (fun _ => -1) (fun _ => -1)).2 5 = -1) := by
  refine cell_range_extraction 3 (fun j => if j = 0 then (2:ℤ) else 5) (by norm_num) ?_ 5
  intro i j hij hj
  interval_cases j <;> interval_cases i <;> norm_num

/-- C6: the position integrator computes `pos + vel * dt` and then, per
coordinate: strictly below `-scene_scale` resets to exactly
`+scene_scale`, strictly above `+scene_scale` resets to exactly
`-scene_scale` (a single reset, however far out the value is), and a
coordinate within `[-scene_scale, scene_scale]` — including the
boundaries themselves — is left unchanged. -/
theorem position_integrator_contract (dt : ℝ) (pos vel : ℕ → V3) (index : ℕ) (a : Fin 3) :
    kernUpdatePos dt pos vel index a = wrapCoord (pos index a + dt * vel index a) ∧
      (∀ x : ℝ, x < -scene_scale → wrapCoord x = scene_scale) ∧
      (∀ x : ℝ, scene_scale < x → wrapCoord x = -scene_scale) ∧
      (∀ x : ℝ, -scene_scale ≤ x → x ≤ scene_scale → wrapCoord x = x) :=
  ⟨rfl, fun x => (wrapCoord_spec x).1, fun x => (wrapCoord_spec x).2.1,
    fun x => (wrapCoord_spec x).2.2⟩

/-- Witness for C6 at concrete inputs: the integration formula, a wrap
below, a wrap above, and the unchanged middle case. -/
theorem position_integrator_contract_witness :
    kernUpdatePos 2 (fun _ => fun _ => 99) (fun _ => fun _ => 3) 0 0
        = wrapCoord ((fun _ : ℕ => fun _ : Fin 3 => (99:ℝ)) 0 0
            + 2 * (fun _ : ℕ => fun _ : Fin 3 => (3:ℝ)) 0 0) ∧
      wrapCoord (-101) = scene_scale ∧ wrapCoord 101 = -scene_scale ∧ wrapCoord 7 = 7 := by
  obtain ⟨h1, h2, h3, h4⟩ :=
    position_integrator_contract 2 (fun _ => fun _ => 99) (fun _ => fun _ => 3) 0 0
  exact ⟨h1, h2 _ (by norm_num [scene_scale]), h3 _ (by norm_num [scene_scale]),
    h4 _ (by norm_num [scene_scale]) (by norm_num [scene_scale])⟩

/-- Witness for C5 at a concrete one-particle state. -/
theorem speed_cap_invariant_witness :
    glen ((stepSimulationNaive 1 1 ⟨fun _ => 0, fun _ => 0⟩).vel 0) ≤ maxSpeed ∧
      glen ((stepSimulationScatteredGrid 1 1 (fun _ => 0) (fun _ => 0)
        ⟨fun _ => 0, fun _ => 0⟩).vel 0) ≤ maxSpeed ∧
      glen ((stepSimulationCoherentGrid 1 1 (fun _ => 0) (fun _ => 0)
        ⟨fun _ => 0, fun _ => 0⟩).vel 0) ≤ maxSpeed :=
  ⟨(speed_cap_invariant 1 1 (fun _ => 0) (fun _ => 0) ⟨fun _ => 0, fun _ => 0⟩ 0).1.1,
    (speed_cap_invariant 1 1 (fun _ => 0) (fun _ => 0) ⟨fun _ => 0, fun _ => 0⟩ 0).1.2.1,
    (speed_cap_invariant 1 1 (fun _ => 0) (fun _ => 0) ⟨fun _ => 0, fun _ => 0⟩ 0).1.2.2⟩

/-- One candidate cell of the 2×2×2 enumeration: the particle's own cell
coordinate plus `step * bias` per axis, flattened. -/
def candCell (boid_pos gridMin : V3) (invW : ℝ) (res : ℤ) (sx sy sz : ℤ) : ℤ :=
  gridIndex3Dto1D
    (gridIndex3D boid_pos gridMin invW 0 + sx * biasAlongAxes boid_pos gridMin invW 0)
    (gridIndex3D boid_pos gridMin invW 1 + sy * biasAlongAxes boid_pos gridMin invW 1)
    (gridIndex3D boid_pos gridMin invW 2 + sz * biasAlongAxes boid_pos gridMin invW 2) res

theorem neighborCellList_eq (boid_pos gridMin : V3) (invW : ℝ) (res : ℤ) :
    neighborCellList boid_pos gridMin invW res
      = [candCell boid_pos gridMin invW res 0 0 0, candCell boid_pos gridMin invW res 1 0 0,
         candCell boid_pos gridMin invW res 0 1 0, candCell boid_pos gridMin invW res 1 1 0,
         candCell boid_pos gridMin invW res 0 0 1, candCell boid_pos gridMin invW res 1 0 1,
         candCell boid_pos gridMin invW res 0 1 1, candCell boid_pos gridMin invW res 1 1 1] := rfl

theorem mem_neighborCellList (boid_pos gridMin : V3) (invW : ℝ) (res : ℤ) (c : ℤ) :
    c ∈ neighborCellList boid_pos gridMin invW res ↔
      ∃ sx sy sz : ℤ, (sx = 0 ∨ sx = 1) ∧ (sy = 0 ∨ sy = 1) ∧ (sz = 0 ∨ sz = 1) ∧
        c = candCell boid_pos gridMin invW res sx sy sz := by
  rw [neighborCellList_eq]
  simp only [List.mem_cons, List.not_mem_nil, or_false]
  constructor
  · rintro (h | h | h | h | h | h | h | h)
    · exact ⟨0, 0, 0, Or.inl rfl, Or.inl rfl, Or.inl rfl, h⟩
    · exact ⟨1, 0, 0, Or.inr rfl, Or.inl rfl, Or.inl rfl, h⟩
    · exact ⟨0, 1, 0, Or.inl rfl, Or.inr rfl, Or.inl rfl, h⟩
    · exact ⟨1, 1, 0, Or.inr rfl, Or.inr rfl, Or.inl rfl, h⟩
    · exact ⟨0, 0, 1, Or.inl rfl, Or.inl rfl, Or.inr rfl, h⟩
    · exact ⟨1, 0, 1, Or.inr rfl, Or.inl rfl, Or.inr rfl, h⟩
    · exact ⟨0, 1, 1, Or.inl rfl, Or.inr rfl, Or.inr rfl, h⟩
    · exact ⟨1, 1, 1, Or.inr rfl, Or.inr rfl, Or.inr rfl, h⟩
  · rintro ⟨sx, sy, sz, hx | hx, hy | hy, hz | hz, hc⟩ <;> subst hx <;> subst hy <;>
      subst hz <;> simp [hc]

/-- C8: per axis the bias is `+1` exactly when the round-based cell
coordinate differs from the floor-based one and `-1` otherwise; the
2×2×2 enumeration produces exactly 8 candidate cells, each of the form
`cell + step * bias` with steps in {0,1}; a candidate enters the search
set exactly when its start-table entry is nonnegative, which under the
table invariant (every entry is the sentinel `-1` or a valid index)
is precisely "not the sentinel". -/
theorem neighbor_cell_selection (boid_pos gridMin : V3) (invW : ℝ) (res : ℤ)
    (startT : ℤ → ℤ) :
    (∀ a : Fin 3,
      (glmRound ((boid_pos a - gridMin a) * invW) ≠ gridIndex3D boid_pos gridMin invW a →
        biasAlongAxes boid_pos gridMin invW a = 1) ∧
      (glmRound ((boid_pos a - gridMin a) * invW) = gridIndex3D boid_pos gridMin invW a →
        biasAlongAxes boid_pos gridMin invW a = -1)) ∧
    (neighborCellList boid_pos gridMin invW res).length = 8 ∧
    (validNeighborList boid_pos gridMin invW res startT).length ≤ 8 ∧
    (∀ c, c ∈ validNeighborList boid_pos gridMin invW res startT ↔
      c ∈ neighborCellList boid_pos gridMin invW res ∧ 0 ≤ startT c) ∧
    ((∀ c, startT c = -1 ∨ 0 ≤ startT c) →
      ∀ c, c ∈ validNeighborList boid_pos gridMin invW res startT ↔
        c ∈ neighborCellList boid_pos gridMin invW res ∧ startT c ≠ -1) ∧
    (∀ c, c ∈ neighborCellList boid_pos gridMin invW res ↔
      ∃ sx sy sz : ℤ, (sx = 0 ∨ sx = 1) ∧ (sy = 0 ∨ sy = 1) ∧ (sz = 0 ∨ sz = 1) ∧
        c = candCell boid_pos gridMin invW res sx sy sz) := by
  refine ⟨?_, ?_, ?_, ?_, ?_, ?_⟩
  · intro a
    constructor
    · intro h; rw [biasAlongAxes, if_pos h]
    · intro h; rw [biasAlongAxes, if_neg (by simpa using h)]
  · rfl
  · calc (validNeighborList boid_pos gridMin invW res startT).length
        ≤ (neighborCellList boid_pos gridMin invW res).length := List.length_filter_le _ _
      _ = 8 := rfl
  · intro c
    rw [validNeighborList, List.mem_filter]
    simp
  · intro hdom c
    rw [validNeighborList, List.mem_filter]
    simp only [decide_eq_true_eq]
    constructor
    · rintro ⟨hm, hge⟩
      exact ⟨hm, by intro hc; rw [hc] at hge; norm_num at hge⟩
    · rintro ⟨hm, hne⟩
      rcases hdom c with h | h
      · exact absurd h hne
      · exact ⟨hm, h⟩
  · exact mem_neighborCellList boid_pos gridMin invW res

/-- Witness for C8's conditional conjunct at the all-sentinel table. -/
theorem neighbor_cell_selection_witness :
    ∀ c, c ∈ validNeighborList 0 0 1 22 (fun _ => -1) ↔
      c ∈ neighborCellList 0 0 1 22 ∧ (fun _ : ℤ => (-1:ℤ)) c ≠ -1 :=
  (neighbor_cell_selection 0 0 1 22 (fun _ => -1)).2.2.2.2.1 fun _ => Or.inl rfl

theorem glmRound_of_nonneg {y : ℝ} (hy : 0 ≤ y) : glmRound y = ⌊y + 1 / 2⌋ := by
  rw [glmRound, if_neg (not_lt.mpr hy)]

/-- For a nonnegative argument, the rounded cell coordinate differs from
the floored one exactly when the fractional part is at least 1/2. -/
theorem glmRound_ne_floor_iff {y : ℝ} (hy : 0 ≤ y) :
    glmRound y ≠ ⌊y⌋ ↔ (⌊y⌋ : ℝ) + 1 / 2 ≤ y := by
  rw [glmRound_of_nonneg hy]
  constructor
  · intro hne
    by_contra hlt
    push_neg at hlt
    apply hne
    have h1 : ⌊y⌋ ≤ ⌊y + 1 / 2⌋ := Int.floor_le_floor (by linarith)
    have h2 : ⌊y + 1 / 2⌋ < ⌊y⌋ + 1 := by
      rw [Int.floor_lt]
      push_cast
      linarith
    omega
  · intro hge heq
    have h2 : ⌊y⌋ + 1 ≤ ⌊y + 1 / 2⌋ := by
      rw [Int.le_floor]
      push_cast
      linarith

    omega

theorem axis_coord_bounds {x : ℝ} (h1 : -100 ≤ x) (h2 : x ≤ 100) :
    1 ≤ ⌊(x - (-110)) * (1 / 10)⌋ ∧ ⌊(x - (-110)) * (1 / 10)⌋ ≤ 21 := by
  have hy1 : (1 : ℝ) ≤ (x - (-110)) * (1 / 10) := by linarith
  have hy2 : (x - (-110)) * (1 / 10) ≤ 21 := by linarith
  constructor
  · rw [Int.le_floor]
    exact_mod_cast hy1
  · calc ⌊(x - (-110)) * (1 / 10)⌋ ≤ ⌊(21 : ℝ)⌋ := Int.floor_le_floor hy2
      _ = 21 := by norm_num

/-- If the particle is in the upper half of its cell along an axis (the
round-based coordinate differs from the floor-based one) then, for
in-bounds positions, the floored coordinate is at most 20, so the `+1`
biased neighbor coordinate stays within the lattice. -/
theorem axis_bias_upper {x : ℝ} (h1 : -100 ≤ x) (h2 : x ≤ 100)
    (hne : glmRound ((x - (-110)) * (1 / 10)) ≠ ⌊(x - (-110)) * (1 / 10)⌋) :
    ⌊(x - (-110)) * (1 / 10)⌋ ≤ 20 := by
  have hy0 : (0 : ℝ) ≤ (x - (-110)) * (1 / 10) := by linarith
  have hge := (glmRound_ne_floor_iff hy0).mp hne
  have hy2 : (x - (-110)) * (1 / 10) ≤ 21 := by linarith
  have hc : (⌊(x - (-110)) * (1 / 10)⌋ : ℝ) ≤ 41 / 2 := by linarith
  have hcl : (⌊(x - (-110)) * (1 / 10)⌋ : ℝ) < 21 := lt_of_le_of_lt hc (by norm_num)
  have : ⌊(x - (-110)) * (1 / 10)⌋ < 21 := by exact_mod_cast hcl
  omega

theorem cand_coord_bounds {x : ℝ} (h1 : -100 ≤ x) (h2 : x ≤ 100) {s : ℤ}
    (hs : s = 0 ∨ s = 1) :
    0 ≤ ⌊(x - (-110)) * (1 / 10)⌋
        + s * (if glmRound ((x - (-110)) * (1 / 10)) ≠ ⌊(x - (-110)) * (1 / 10)⌋
            then 1 else -1) ∧
      ⌊(x - (-110)) * (1 / 10)⌋
        + s * (if glmRound ((x - (-110)) * (1 / 10)) ≠ ⌊(x - (-110)) * (1 / 10)⌋
            then 1 else -1) ≤ 21 := by
  obtain ⟨hg1, hg2⟩ := axis_coord_bounds h1 h2
  rcases hs with hs | hs <;> subst hs
  · simp only [zero_mul, add_zero]
    omega
  · by_cases hne : glmRound ((x - (-110)) * (1 / 10)) ≠ ⌊(x - (-110)) * (1 / 10)⌋
    · rw [if_pos hne]
      have := axis_bias_upper h1 h2 hne
      omega
    · rw [if_neg hne]
      omega

theorem gridIndex3D_grid_eq (p : V3) (a : Fin 3) :
    gridIndex3D p gridMinimum gridInverseCellWidth a = ⌊(p a - (-110)) * (1 / 10)⌋ := by
  simp only [gridIndex3D, gridMinimum_eq, gridInverseCellWidth_eq]

theorem biasAlongAxes_grid_eq (p : V3) (a : Fin 3) :
    biasAlongAxes p gridMinimum gridInverseCellWidth a
      = if glmRound ((p a - (-110)) * (1 / 10)) ≠ ⌊(p a - (-110)) * (1 / 10)⌋
        then 1 else -1 := by
  simp only [biasAlongAxes, gridIndex3D, gridMinimum_eq, gridInverseCellWidth_eq]

theorem candCell_bounds (p : V3)
    (hb : ∀ a : Fin 3, -scene_scale ≤ p a ∧ p a ≤ scene_scale) {sx sy sz : ℤ}
    (hx : sx = 0 ∨ sx = 1) (hy : sy = 0 ∨ sy = 1) (hz : sz = 0 ∨ sz = 1) :
    0 ≤ candCell p gridMinimum gridInverseCellWidth gridSideCount sx sy sz ∧
      candCell p gridMinimum gridInverseCellWidth gridSideCount sx sy sz < gridCellCount := by
  have hb100 : ∀ a : Fin 3, -100 ≤ p a ∧ p a ≤ 100 := by
    intro a
    have := hb a
    rw [scene_scale] at this
    exact this
  have h0 := cand_coord_bounds (hb100 0).1 (hb100 0).2 hx
  have h1 := cand_coord_bounds (hb100 1).1 (hb100 1).2 hy
  have h2 := cand_coord_bounds (hb100 2).1 (hb100 2).2 hz
  rw [candCell, gridIndex3Dto1D, gridIndex3D_grid_eq, gridIndex3D_grid_eq, gridIndex3D_grid_eq,
    biasAlongAxes_grid_eq, biasAlongAxes_grid_eq, biasAlongAxes_grid_eq, gridSideCount_eq,
    gridCellCount_eq]
  obtain ⟨h0a, h0b⟩ := h0
  obtain ⟨h1a, h1b⟩ := h1
  obtain ⟨h2a, h2b⟩ := h2
  constructor <;> nlinarith [h0a, h0b, h1a, h1b, h2a, h2b]

/-- C9: with the initialisation-derived grid parameters (cell width 10,
22 cells per side, minimum corner -110 per axis), every candidate
neighbor cell of a particle whose position lies within
`[-scene_scale, scene_scale]` on each axis has per-axis coordinates in
`[0, gridSideCount - 1]` and a flattened id in `[0, gridCellCount)`, so
the cell-table reads at that id are in bounds. -/
theorem neighbor_cells_in_bounds (p : V3)
    (hb : ∀ a : Fin 3, -scene_scale ≤ p a ∧ p a ≤ scene_scale) :
    gridCellWidth = 10 ∧ gridSideCount = 22 ∧ gridCellCount = 10648 ∧
      (∀ a : Fin 3, gridMinimum a = -110) ∧
      (∀ a : Fin 3, ∀ s : ℤ, s = 0 ∨ s = 1 →
        0 ≤ gridIndex3D p gridMinimum gridInverseCellWidth a
            + s * biasAlongAxes p gridMinimum gridInverseCellWidth a ∧
          gridIndex3D p gridMinimum gridInverseCellWidth a
            + s * biasAlongAxes p gridMinimum gridInverseCellWidth a ≤ gridSideCount - 1) ∧
      (∀ c ∈ neighborCellList p gridMinimum gridInverseCellWidth gridSideCount,
        0 ≤ c ∧ c < gridCellCount) := by
  have hb100 : ∀ a : Fin 3, -100 ≤ p a ∧ p a ≤ 100 := by
    intro a
    have := hb a
    rw [scene_scale] at this
    exact this
  refine ⟨gridCellWidth_eq, gridSideCount_eq, gridCellCount_eq, gridMinimum_eq, ?_, ?_⟩
  · intro a s hs
    have := cand_coord_bounds (hb100 a).1 (hb100 a).2 hs
    rw [gridIndex3D_grid_eq, biasAlongAxes_grid_eq, gridSideCount_eq]
    omega
  · intro c hc
    rw [mem_neighborCellList] at hc
    obtain ⟨sx, sy, sz, hsx, hsy, hsz, hceq⟩ := hc
    rw [hceq]
    exact candCell_bounds p hb hsx hsy hsz

/-- Witness for C9 at the origin position. -/
theorem neighbor_cells_in_bounds_witness :
    gridCellWidth = 10 ∧ gridSideCount = 22 ∧ gridCellCount = 10648 ∧
      (∀ a : Fin 3, gridMinimum a = -110) ∧
      (∀ a : Fin 3, ∀ s : ℤ, s = 0 ∨ s = 1 →
        0 ≤ gridIndex3D 0 gridMinimum gridInverseCellWidth a
            + s * biasAlongAxes 0 gridMinimum gridInverseCellWidth a ∧
          gridIndex3D 0 gridMinimum gridInverseCellWidth a
            + s * biasAlongAxes 0 gridMinimum gridInverseCellWidth a ≤ gridSideCount - 1) ∧
      (∀ c ∈ neighborCellList 0 gridMinimum gridInverseCellWidth gridSideCount,
        0 ≤ c ∧ c < gridCellCount) :=
  neighbor_cells_in_bounds 0 fun a => by norm_num [scene_scale]

theorem sortSlots_perm (N : ℕ) (key : ℕ → ℤ) : (sortSlots N key).Perm (List.range N) :=
  List.mergeSort_perm _ _

theorem sortSlots_length (N : ℕ) (key : ℕ → ℤ) : (sortSlots N key).length = N := by
  rw [(sortSlots_perm N key).length_eq, List.length_range]

theorem sortSlots_nodup (N : ℕ) (key : ℕ → ℤ) : (sortSlots N key).Nodup :=
  ((sortSlots_perm N key).nodup_iff).mpr (List.nodup_range N)

theorem mem_sortSlots {N : ℕ} {key : ℕ → ℤ} {j : ℕ} : j ∈ sortSlots N key ↔ j < N := by
  rw [(sortSlots_perm N key).mem_iff, List.mem_range]

theorem sortPermF_eq_getElem {N : ℕ} {key : ℕ → ℤ} {j : ℕ} (h : j < N) :
    sortPermF N key j = (sortSlots N key).get ⟨j, by rw [sortSlots_length]; exact h⟩ := by
  rw [sortPermF, List.getD_eq_getElem _ _ (by rw [sortSlots_length]; exact h)]
  rfl

theorem sortPermF_lt {N : ℕ} {key : ℕ → ℤ} {j : ℕ} (h : j < N) : sortPermF N key j < N := by
  rw [sortPermF_eq_getElem h]
  exact mem_sortSlots.mp (List.get_mem (sortSlots N key) j (by rw [sortSlots_length]; exact h))

theorem sortPermF_inj {N : ℕ} {key : ℕ → ℤ} {i j : ℕ} (hi : i < N) (hj : j < N)
    (he : sortPermF N key i = sortPermF N key j) : i = j := by
  rw [sortPermF_eq_getElem hi, sortPermF_eq_getElem hj] at he
  have := (List.nodup_iff_injective_get.mp (sortSlots_nodup N key)) he
  exact congrArg Fin.val this

theorem sortPermF_surj {N : ℕ} {key : ℕ → ℤ} {k : ℕ} (hk : k < N) :
    ∃ j, j < N ∧ sortPermF N key j = k := by
  have hmem : k ∈ sortSlots N key := mem_sortSlots.mpr hk
  obtain ⟨idx, hidx, heq⟩ := List.mem_iff_getElem.mp hmem
  refine ⟨idx, by rw [sortSlots_length] at hidx; exact hidx, ?_⟩
  rw [sortPermF_eq_getElem (by rw [sortSlots_length] at hidx; exact hidx)]
  exact heq

/-- The keys listed in sorted slot order are non-decreasing. -/
theorem sortPermF_sorted (N : ℕ) (key : ℕ → ℤ) :
    ∀ i j, i ≤ j → j < N → key (sortPermF N key i) ≤ key (sortPermF N key j) := by
  have hpair := @List.sorted_mergeSort ℕ
    (fun i j => decide (key i ≤ key j))
    (fun a b c hab hbc => by
      simp only [decide_eq_true_eq] at *
      exact le_trans hab hbc)
    (fun a b => by
      simp only [Bool.or_eq_true, decide_eq_true_eq]
      exact le_total (key a) (key b))
    (List.range N)
  rw [List.pairwise_iff_getElem] at hpair
  intro i j hij hj
  rcases Nat.eq_or_lt_of_le hij with heq | hlt
  · subst heq; exact le_refl _
  · have hi : i < N := lt_trans hlt hj
    have hjl : j < (sortSlots N key).length := by rw [sortSlots_length]; exact hj
    have hil : i < (sortSlots N key).length := by rw [sortSlots_length]; exact hi
    have := hpair i j hil hjl hlt
    simp only [decide_eq_true_eq] at this
    rw [sortPermF_eq_getElem hi, sortPermF_eq_getElem hj]
    exact this

/-- The grid-index key array built by `kernComputeIndices` with the
initialisation-derived grid parameters. -/
def gridKeys (pos : ℕ → V3) : ℕ → ℤ :=
  (kernComputeIndices gridSideCount gridMinimum gridInverseCellWidth pos).2

/-- C3: in the coherent step the three `thrust::sort_by_key` calls are
keyed by identical copies of the unsorted grid-index array, so the
reorder applies one and the same permutation `σ` (the sort-by-grid-index
permutation) to the position array, the current-velocity array, and grid
order: sorted slot `j` holds the position and the velocity of the same
original particle `σ j`, the sorted `particleArrayIndices` array is `σ`
itself, `σ` is a bijection of the slot range, and the keys are
non-decreasing along `σ`. -/
theorem coherent_reorder_same_permutation (N : ℕ) (s : SimState) :
    ∃ σ : ℕ → ℕ,
      σ = sortPermF N (gridKeys s.pos) ∧
      (thrustSortByKey N (gridKeys s.pos) s.pos).2 = (fun j => s.pos (σ j)) ∧
      (thrustSortByKey N (gridKeys s.pos) s.vel).2 = (fun j => s.vel (σ j)) ∧
      (thrustSortByKey N (gridKeys s.pos)
        (kernComputeIndices gridSideCount gridMinimum gridInverseCellWidth s.pos).1).2 = σ ∧
      (∀ j, j < N → σ j < N) ∧
      (∀ i j, i < N → j < N → σ i = σ j → i = j) ∧
      (∀ k, k < N → ∃ j, j < N ∧ σ j = k) ∧
      (∀ i j, i ≤ j → j < N → gridKeys s.pos (σ i) ≤ gridKeys s.pos (σ j)) :=
  ⟨sortPermF N (gridKeys s.pos), rfl, rfl, rfl, rfl,
    fun _ h => sortPermF_lt h,
    fun _ _ hi hj he => sortPermF_inj hi hj he,
    fun _ hk => sortPermF_surj hk,
    sortPermF_sorted N (gridKeys s.pos)⟩

/-- Witness for C3 at a concrete two-particle state. -/
theorem coherent_reorder_same_permutation_witness :
    ∃ σ : ℕ → ℕ,
      σ = sortPermF 2 (gridKeys posAB) ∧
      (thrustSortByKey 2 (gridKeys posAB) posAB).2 = (fun j => posAB (σ j)) ∧
      (thrustSortByKey 2 (gridKeys posAB) velAB).2 = (fun j => velAB (σ j)) ∧
      (thrustSortByKey 2 (gridKeys posAB)
        (kernComputeIndices gridSideCount gridMinimum gridInverseCellWidth posAB).1).2 = σ ∧
      (∀ j, j < 2 → σ j < 2) ∧
      (∀ i j, i < 2 → j < 2 → σ i = σ j → i = j) ∧
      (∀ k, k < 2 → ∃ j, j < 2 ∧ σ j = k) ∧
      (∀ i j, i ≤ j → j < 2 → gridKeys posAB (σ i) ≤ gridKeys posAB (σ j)) :=
  coherent_reorder_same_permutation 2 ⟨posAB, velAB⟩

theorem foldl_flatMap {α β γ : Type} (g : γ → List α) (f : β → α → β) :
    ∀ (l : List γ) (init : β),
      (l.flatMap g).foldl f init = l.foldl (fun acc c => (g c).foldl f acc) init
  | [], _ => rfl
  | c :: t, init => by
    rw [List.flatMap_cons, List.foldl_append, List.foldl_cons]
    exact foldl_flatMap g f t _

theorem mem_slotRange {a b : ℤ} (ha : 0 ≤ a) {j : ℕ} :
    j ∈ slotRange a b ↔ a ≤ (j : ℤ) ∧ (j : ℤ) ≤ b := by
  simp only [slotRange, List.mem_map, List.mem_range]
  constructor
  · rintro ⟨k, hk, rfl⟩
    constructor <;> omega
  · rintro ⟨h1, h2⟩
    exact ⟨j - a.toNat, by omega, by omega⟩

theorem slotRange_nodup (a b : ℤ) : (slotRange a b).Nodup := by
  rw [slotRange]
  exact (List.nodup_range _).map_on fun x _ y _ h => by omega

theorem biasAlongAxes_cases (boid_pos gridMin : V3) (invW : ℝ) (a : Fin 3) :
    biasAlongAxes boid_pos gridMin invW a = 1 ∨ biasAlongAxes boid_pos gridMin invW a = -1 := by
  rw [biasAlongAxes]
  by_cases h : glmRound ((boid_pos a - gridMin a) * invW) ≠ gridIndex3D boid_pos gridMin invW a
  · exact Or.inl (if_pos h)
  · exact Or.inr (if_neg h)

theorem candCell_inj (p : V3) (hb : ∀ a : Fin 3, -scene_scale ≤ p a ∧ p a ≤ scene_scale)
    {sx sy sz tx ty tz : ℤ} (hsx : sx = 0 ∨ sx = 1) (hsy : sy = 0 ∨ sy = 1)
    (hsz : sz = 0 ∨ sz = 1) (htx : tx = 0 ∨ tx = 1) (hty : ty = 0 ∨ ty = 1)
    (htz : tz = 0 ∨ tz = 1)
    (h : candCell p gridMinimum gridInverseCellWidth gridSideCount sx sy sz
      = candCell p gridMinimum gridInverseCellWidth gridSideCount tx ty tz) :
    sx = tx ∧ sy = ty ∧ sz = tz := by
  have hb100 : ∀ a : Fin 3, -100 ≤ p a ∧ p a ≤ 100 := by
    intro a
    have := hb a
    rw [scene_scale] at this
    exact this
  have h0s := cand_coord_bounds (hb100 0).1 (hb100 0).2 hsx
  have h1s := cand_coord_bounds (hb100 1).1 (hb100 1).2 hsy
  have h2s := cand_coord_bounds (hb100 2).1 (hb100 2).2 hsz
  have h0t := cand_coord_bounds (hb100 0).1 (hb100 0).2 htx
  have h1t := cand_coord_bounds (hb100 1).1 (hb100 1).2 hty
  have h2t := cand_coord_bounds (hb100 2).1 (hb100 2).2 htz
  have hbc0 := biasAlongAxes_cases p gridMinimum gridInverseCellWidth 0
  have hbc1 := biasAlongAxes_cases p gridMinimum gridInverseCellWidth 1
  have hbc2 := biasAlongAxes_cases p gridMinimum gridInverseCellWidth 2
  rw [candCell, candCell, gridIndex3Dto1D, gridIndex3Dto1D, gridSideCount_eq] at h
  rw [gridIndex3D_grid_eq p 0, gridIndex3D_grid_eq p 1, gridIndex3D_grid_eq p 2,
    biasAlongAxes_grid_eq p 0, biasAlongAxes_grid_eq p 1, biasAlongAxes_grid_eq p 2] at h
  rw [biasAlongAxes_grid_eq p 0] at hbc0
  rw [biasAlongAxes_grid_eq p 1] at hbc1
  rw [biasAlongAxes_grid_eq p 2] at hbc2
  rcases hbc0 with hb0 | hb0 <;> rcases hbc1 with hb1 | hb1 <;> rcases hbc2 with hb2 | hb2 <;>
    simp only [hb0, hb1, hb2] at h h0s h1s h2s h0t h1t h2t <;> omega

theorem neighborCellList_nodup (p : V3)
    (hb : ∀ a : Fin 3, -scene_scale ≤ p a ∧ p a ≤ scene_scale) :
    (neighborCellList p gridMinimum gridInverseCellWidth gridSideCount).Nodup := by
  have hmap : neighborCellList p gridMinimum gridInverseCellWidth gridSideCount
      = ([(0,0,0), (1,0,0), (0,1,0), (1,1,0), (0,0,1), (1,0,1), (0,1,1), (1,1,1)]
          : List (ℤ × ℤ × ℤ)).map
        (fun t => candCell p gridMinimum gridInverseCellWidth gridSideCount t.1 t.2.1 t.2.2) :=
    rfl
  rw [hmap]
  refine List.Nodup.map_on ?_ (by decide)
  intro x hx y hy hcand
  have hxr : (x.1 = 0 ∨ x.1 = 1) ∧ (x.2.1 = 0 ∨ x.2.1 = 1) ∧ (x.2.2 = 0 ∨ x.2.2 = 1) := by
    fin_cases hx <;> simp
  have hyr : (y.1 = 0 ∨ y.1 = 1) ∧ (y.2.1 = 0 ∨ y.2.1 = 1) ∧ (y.2.2 = 0 ∨ y.2.2 = 1) := by
    fin_cases hy <;> simp
  obtain ⟨he1, he2, he3⟩ := candCell_inj p hb hxr.1 hxr.2.1 hxr.2.2 hyr.1 hyr.2.1 hyr.2.2 hcand
  exact Prod.ext he1 (Prod.ext he2 he3)

/-- Each axis contributes at most the per-axis distance to the Euclidean
distance: a neighbor within `glm` distance 5 is within 5 on every axis. -/
theorem gdist_axis_lt {p q : V3} (h : gdist p q < 5) (a : Fin 3) : |p a - q a| < 5 := by
  rw [gdist_lt_iff (by norm_num) p q, n2] at h
  simp only [Pi.sub_apply] at h
  refine abs_lt_of_sq_lt_sq ?_ (by norm_num)
  fin_cases a
  · show (p 0 - q 0) ^ 2 < 5 ^ 2
    nlinarith [sq_nonneg (p 1 - q 1), sq_nonneg (p 2 - q 2)]
  · show (p 1 - q 1) ^ 2 < 5 ^ 2
    nlinarith [sq_nonneg (p 0 - q 0), sq_nonneg (p 2 - q 2)]
  · show (p 2 - q 2) ^ 2 < 5 ^ 2
    nlinarith [sq_nonneg (p 0 - q 0), sq_nonneg (p 1 - q 1)]

/-- Per-axis capture: a coordinate within distance 5 of the focal
coordinate lands in the focal cell or the biased neighbor cell along
that axis. -/
theorem axis_capture {x q : ℝ} (hx1 : -100 ≤ x) (hx2 : x ≤ 100) (hd : |q - x| < 5) :
    ∃ s : ℤ, (s = 0 ∨ s = 1) ∧
      ⌊(q - (-110)) * (1 / 10)⌋
        = ⌊(x - (-110)) * (1 / 10)⌋
          + s * (if glmRound ((x - (-110)) * (1 / 10)) ≠ ⌊(x - (-110)) * (1 / 10)⌋
              then 1 else -1) := by
  have habs := abs_lt.mp hd
  set y := (x - (-110)) * (1 / 10) with hy
  set z := (q - (-110)) * (1 / 10) with hz
  have hzy1 : y - 1 / 2 < z := by rw [hy, hz]; linarith
  have hzy2 : z < y + 1 / 2 := by rw [hy, hz]; linarith
  have hy0 : (0 : ℝ) ≤ y := by rw [hy]; linarith
  have hfy1 : (⌊y⌋ : ℝ) ≤ y := Int.floor_le y
  have hfy2 : y < ⌊y⌋ + 1 := Int.lt_floor_add_one y
  by_cases hne : glmRound y ≠ ⌊y⌋
  · rw [if_pos hne]
    have hge := (glmRound_ne_floor_iff hy0).mp hne
    have hzlow : (⌊y⌋ : ℝ) < z := by linarith
    have hzhigh : z < (⌊y⌋ : ℝ) + 2 := by linarith
    have hf1 : ⌊y⌋ ≤ ⌊z⌋ := Int.le_floor.mpr (le_of_lt hzlow)
    have hf2 : ⌊z⌋ < ⌊y⌋ + 2 := Int.floor_lt.mpr (by push_cast; linarith)
    exact ⟨⌊z⌋ - ⌊y⌋, by omega, by omega⟩
  · rw [if_neg hne]
    push_neg at hne
    have hlt : y < (⌊y⌋ : ℝ) + 1 / 2 := by
      by_contra hge2
      push_neg at hge2
      exact (glmRound_ne_floor_iff hy0).mpr hge2 hne
    have hzlow : (⌊y⌋ : ℝ) - 1 < z := by linarith
    have hzhigh : z < (⌊y⌋ : ℝ) + 1 := by linarith
    have hf1 : ⌊y⌋ - 1 ≤ ⌊z⌋ := Int.le_floor.mpr (by push_cast; linarith)
    have hf2 : ⌊z⌋ < ⌊y⌋ + 1 := Int.floor_lt.mpr (by push_cast; linarith)
    exact ⟨⌊y⌋ - ⌊z⌋, by omega, by omega⟩

/-- A particle within `glm` distance 5 of the focal particle lies in one
of the focal particle's 8 candidate neighbor cells. -/
theorem cell_capture {bp qp : V3}
    (hbpb : ∀ a : Fin 3, -scene_scale ≤ bp a ∧ bp a ≤ scene_scale)
    (hdist : gdist qp bp < 5) :
    gridKeys (fun _ => qp) 0 ∈ neighborCellList bp gridMinimum gridInverseCellWidth gridSideCount := by
  have hb100 : ∀ a : Fin 3, -100 ≤ bp a ∧ bp a ≤ 100 := by
    intro a
    have := hbpb a
    rw [scene_scale] at this
    exact this
  obtain ⟨s0, hs0r, hs0⟩ := axis_capture (hb100 0).1 (hb100 0).2 (gdist_axis_lt hdist 0)
  obtain ⟨s1, hs1r, hs1⟩ := axis_capture (hb100 1).1 (hb100 1).2 (gdist_axis_lt hdist 1)
  obtain ⟨s2, hs2r, hs2⟩ := axis_capture (hb100 2).1 (hb100 2).2 (gdist_axis_lt hdist 2)
  rw [mem_neighborCellList]
  refine ⟨s0, s1, s2, hs0r, hs1r, hs2r, ?_⟩
  show gridIndex1D qp gridMinimum gridInverseCellWidth gridSideCount = _
  rw [gridIndex1D, candCell, gridIndex3Dto1D, gridIndex3Dto1D]
  rw [gridIndex3D_grid_eq qp 0, gridIndex3D_grid_eq qp 1, gridIndex3D_grid_eq qp 2,
    gridIndex3D_grid_eq bp 0, gridIndex3D_grid_eq bp 1, gridIndex3D_grid_eq bp 2,
    biasAlongAxes_grid_eq bp 0, biasAlongAxes_grid_eq bp 1, biasAlongAxes_grid_eq bp 2]
  rw [hs0, hs1, hs2]

/-- The cell tables of the grid strategies: reset to `-1` over the
`gridCellCount` cells, then the start/end extraction pass over `K`. -/
def gridTables (N : ℕ) (K : ℕ → ℤ) (start0 end0 : ℤ → ℤ) : (ℤ → ℤ) × (ℤ → ℤ) :=
  kernIdentifyCellStartEnd N K (kernResetIntBuffer gridCellCount start0 (-1))
    (kernResetIntBuffer gridCellCount end0 (-1))

theorem buildCellTables_eq (N : ℕ) (start0 end0 : ℤ → ℤ) (pos : ℕ → V3) :
    buildCellTables N start0 end0 pos
      = gridTables N (fun j => gridKeys pos (sortPermF N (gridKeys pos) j)) start0 end0 := rfl

theorem gridTables_present (N : ℕ) (K : ℕ → ℤ) (start0 end0 : ℤ → ℤ)
    (hsort : ∀ i j, i ≤ j → j < N → K i ≤ K j) {c : ℤ} (hc : ∃ i, i < N ∧ K i = c) :
    ∃ f l : ℕ, f < N ∧ l < N ∧ f ≤ l ∧
      (gridTables N K start0 end0).1 c = (f : ℤ) ∧
      (gridTables N K start0 end0).2 c = (l : ℤ) ∧
      (∀ j, j < N → ((f ≤ j ∧ j ≤ l) ↔ K j = c)) := by
  obtain ⟨i, hi, hKi⟩ := hc
  have hne : (occSet N K c).Nonempty := ⟨i, occSet_mem.mpr ⟨hi, hKi⟩⟩
  have hfS := occSet_mem.mp ((occSet N K c).min'_mem hne)
  have hlS := occSet_mem.mp ((occSet N K c).max'_mem hne)
  refine ⟨(occSet N K c).min' hne, (occSet N K c).max' hne, hfS.1, hlS.1,
    (occSet N K c).min'_le _ (occSet_mem.mpr hlS), ?_, ?_, ?_⟩
  · rw [gridTables, kernIdentifyCellStartEnd, identify_foldl_fst]
    exact foldl_update_unique (fun idx => (idx : ℤ)) (List.range N) _ _
      (List.mem_range.mpr hfS.1)
      ((startCond_iff_min hsort hne hfS.1).mpr rfl)
      fun x hx hpx => (startCond_iff_min hsort hne (List.mem_range.mp hx)).mp hpx
  · rw [gridTables, kernIdentifyCellStartEnd, identify_foldl_snd]
    exact foldl_update_unique (fun idx => (idx : ℤ)) (List.range N) _ _
      (List.mem_range.mpr hlS.1)
      ((endCond_iff_max hsort hne hlS.1).mpr rfl)
      fun x hx hpx => (endCond_iff_max hsort hne (List.mem_range.mp hx)).mp hpx
  · intro j hj
    constructor
    · rintro ⟨hfj, hjl⟩
      have h1 : K ((occSet N K c).min' hne) ≤ K j := hsort _ _ hfj hj
      have h2 : K j ≤ K ((occSet N K c).max' hne) := hsort _ _ hjl hlS.1
      rw [hfS.2] at h1
      rw [hlS.2] at h2
      exact le_antisymm h2 h1
    · intro hKj
      have hmem : j ∈ occSet N K c := occSet_mem.mpr ⟨hj, hKj⟩
      exact ⟨(occSet N K c).min'_le j hmem, (occSet N K c).le_max' j hmem⟩

theorem gridTables_absent (N : ℕ) (K : ℕ → ℤ) (start0 end0 : ℤ → ℤ) {c : ℤ}
    (hcr : 0 ≤ c ∧ c < gridCellCount) (habs : ∀ i, i < N → K i ≠ c) :
    (gridTables N K start0 end0).1 c = -1 ∧ (gridTables N K start0 end0).2 c = -1 := by
  constructor
  · rw [gridTables, kernIdentifyCellStartEnd, identify_foldl_fst,
      foldl_update_none (fun idx => (idx : ℤ)) (List.range N) _
        fun x hx hpx => habs x (List.mem_range.mp hx) hpx.2]
    simp only [kernResetIntBuffer]
    rw [if_pos hcr]
  · rw [gridTables, kernIdentifyCellStartEnd, identify_foldl_snd,
      foldl_update_none (fun idx => (idx : ℤ)) (List.range N) _
        fun x hx hpx => habs x (List.mem_range.mp hx) hpx.2]
    simp only [kernResetIntBuffer]
    rw [if_pos hcr]

/-- Every cell in the valid-neighbor list is present in the keys, with
the full start/end range characterization. -/
theorem valid_cell_char (N : ℕ) (P : ℕ → V3) (K : ℕ → ℤ) (start0 end0 : ℤ → ℤ) (i₀ : ℕ)
    (hsort : ∀ i j, i ≤ j → j < N → K i ≤ K j)
    (hbp : ∀ j, j < N → ∀ a : Fin 3, -scene_scale ≤ P j a ∧ P j a ≤ scene_scale)
    (hi₀ : i₀ < N) {c : ℤ}
    (hc : c ∈ validNeighborList (P i₀) gridMinimum gridInverseCellWidth gridSideCount
      (gridTables N K start0 end0).1) :
    ∃ f l : ℕ, f < N ∧ l < N ∧ f ≤ l ∧
      (gridTables N K start0 end0).1 c = (f : ℤ) ∧
      (gridTables N K start0 end0).2 c = (l : ℤ) ∧
      (∀ j, j < N → ((f ≤ j ∧ j ≤ l) ↔ K j = c)) := by
  have hmf := List.mem_filter.mp hc
  have hge : 0 ≤ (gridTables N K start0 end0).1 c := by
    have := hmf.2
    simp only [decide_eq_true_eq] at this
    exact this
  have hrange : 0 ≤ c ∧ c < gridCellCount := by
    obtain ⟨sx, sy, sz, hx, hy, hz, hceq⟩ := (mem_neighborCellList _ _ _ _ c).mp hmf.1
    rw [hceq]
    exact candCell_bounds (P i₀) (hbp i₀ hi₀) hx hy hz
  by_cases hpres : ∃ i, i < N ∧ K i = c
  · exact gridTables_present N K start0 end0 hsort hpres
  · push_neg at hpres
    have habs := (gridTables_absent N K start0 end0 hrange fun i hi => hpres i hi).1
    rw [habs] at hge
    norm_num at hge

/-- Membership in the gathered slot list: exactly the slots below `N`
whose key cell is one of the valid neighbor cells. -/
theorem mem_gatherList (N : ℕ) (P : ℕ → V3) (K : ℕ → ℤ) (start0 end0 : ℤ → ℤ) (i₀ : ℕ)
    (hsort : ∀ i j, i ≤ j → j < N → K i ≤ K j)
    (hbp : ∀ j, j < N → ∀ a : Fin 3, -scene_scale ≤ P j a ∧ P j a ≤ scene_scale)
    (hi₀ : i₀ < N) (j : ℕ) :
    (j ∈ (validNeighborList (P i₀) gridMinimum gridInverseCellWidth gridSideCount
        (gridTables N K start0 end0).1).flatMap
      fun c => slotRange ((gridTables N K start0 end0).1 c) ((gridTables N K start0 end0).2 c))
    ↔ (j < N ∧ K j ∈ validNeighborList (P i₀) gridMinimum gridInverseCellWidth gridSideCount
        (gridTables N K start0 end0).1) := by
  rw [List.mem_flatMap]
  constructor
  · rintro ⟨c, hcv, hjr⟩
    obtain ⟨f, l, hfN, hlN, hfl, hsf, hse, hchar⟩ :=
      valid_cell_char N P K start0 end0 i₀ hsort hbp hi₀ hcv
    rw [hsf, hse] at hjr
    rw [mem_slotRange (by positivity)] at hjr
    have hjN : j < N := by omega
    have : K j = c := (hchar j hjN).mp (by omega)
    rw [this]
    exact ⟨hjN, hcv⟩
  · rintro ⟨hjN, hKv⟩
    refine ⟨K j, hKv, ?_⟩
    obtain ⟨f, l, hfN, hlN, hfl, hsf, hse, hchar⟩ :=
      valid_cell_char N P K start0 end0 i₀ hsort hbp hi₀ hKv
    rw [hsf, hse, mem_slotRange (by positivity)]
    have := (hchar j hjN).mpr rfl
    omega

/-- The gathered slot list has no duplicates. -/
theorem gatherList_nodup (N : ℕ) (P : ℕ → V3) (K : ℕ → ℤ) (start0 end0 : ℤ → ℤ) (i₀ : ℕ)
    (hsort : ∀ i j, i ≤ j → j < N → K i ≤ K j)
    (hbp : ∀ j, j < N → ∀ a : Fin 3, -scene_scale ≤ P j a ∧ P j a ≤ scene_scale)
    (hi₀ : i₀ < N) :
    ((validNeighborList (P i₀) gridMinimum gridInverseCellWidth gridSideCount
        (gridTables N K start0 end0).1).flatMap
      fun c => slotRange ((gridTables N K start0 end0).1 c)
        ((gridTables N K start0 end0).2 c)).Nodup := by
  rw [List.nodup_flatMap]
  refine ⟨fun c _ => slotRange_nodup _ _, ?_⟩
  have hvn : (validNeighborList (P i₀) gridMinimum gridInverseCellWidth gridSideCount
      (gridTables N K start0 end0).1).Nodup :=
    (neighborCellList_nodup (P i₀) (hbp i₀ hi₀)).filter _
  refine hvn.imp_of_mem ?_
  intro c c' hcv hcv' hne j hj hj'
  obtain ⟨f, l, hfN, hlN, hfl, hsf, hse, hchar⟩ :=
    valid_cell_char N P K start0 end0 i₀ hsort hbp hi₀ hcv
  obtain ⟨f', l', hfN', hlN', hfl', hsf', hse', hchar'⟩ :=
    valid_cell_char N P K start0 end0 i₀ hsort hbp hi₀ hcv'
  simp only [] at hj hj'
  rw [hsf, hse, mem_slotRange (by positivity)] at hj
  rw [hsf', hse', mem_slotRange (by positivity)] at hj'
  have hjN : j < N := by omega
  have h1 : K j = c := (hchar j hjN).mp (by omega)
  have h2 : K j = c' := (hchar' j hjN).mp (by omega)
  exact hne (h1 ▸ h2)

/-- Core permutation lemma: the guard-filtered gathered slot list is a
permutation of the guard-filtered full index range, provided the guard
implies `glm` distance below 5 from the focal particle. -/
theorem gather_filter_perm (N : ℕ) (P : ℕ → V3) (K : ℕ → ℤ) (start0 end0 : ℤ → ℤ) (i₀ : ℕ)
    (hK : ∀ j, j < N → K j = gridKeys P j)
    (hsort : ∀ i j, i ≤ j → j < N → K i ≤ K j)
    (hbp : ∀ j, j < N → ∀ a : Fin 3, -scene_scale ≤ P j a ∧ P j a ≤ scene_scale)
    (hi₀ : i₀ < N) (q : ℕ → Prop) [DecidablePred q]
    (hqd : ∀ i, i < N → q i → gdist (P i) (P i₀) < 5) :
    (((validNeighborList (P i₀) gridMinimum gridInverseCellWidth gridSideCount
          (gridTables N K start0 end0).1).flatMap
        fun c => slotRange ((gridTables N K start0 end0).1 c)
          ((gridTables N K start0 end0).2 c)).filter
      fun j => decide (q j)).Perm
    ((List.range N).filter fun j => decide (q j)) := by
  rw [List.perm_ext_iff_of_nodup
    ((gatherList_nodup N P K start0 end0 i₀ hsort hbp hi₀).filter _)
    ((List.nodup_range N).filter _)]
  intro j
  rw [List.mem_filter, List.mem_filter, List.mem_range,
    mem_gatherList N P K start0 end0 i₀ hsort hbp hi₀ j]
  constructor
  · rintro ⟨⟨hjN, _⟩, hq⟩
    exact ⟨hjN, hq⟩
  · rintro ⟨hjN, hq⟩
    refine ⟨⟨hjN, ?_⟩, hq⟩
    have hqj : q j := by
      simpa using hq
    have hdist : gdist (P j) (P i₀) < 5 := hqd j hjN hqj
    rw [hK j hjN]
    rw [validNeighborList, List.mem_filter]
    constructor
    · have : gridKeys P j = gridKeys (fun _ => P j) 0 := rfl
      rw [this]
      exact cell_capture (hbp i₀ hi₀) hdist
    · obtain ⟨f, l, hfN, hlN, hfl, hsf, hse, hchar⟩ :=
        gridTables_present N K start0 end0 hsort ⟨j, hjN, hK j hjN⟩
      simp only [decide_eq_true_eq]
      rw [hsf]
      positivity

theorem foldl_congr_mem {α β : Type} (l : List α) (f g : β → α → β)
    (h : ∀ b, ∀ x ∈ l, f b x = g b x) : ∀ init, l.foldl f init = l.foldl g init := by
  induction l with
  | nil => intro init; rfl
  | cons x t ih =>
    intro init
    rw [List.foldl_cons, List.foldl_cons, h init x (List.mem_cons_self x t)]
    exact ih (fun b y hy => h b y (List.mem_cons_of_mem x hy)) _

/-- The sort permutation, listed over the slot range, is a permutation
of the slot range. -/
theorem range_map_sortPermF (N : ℕ) (key : ℕ → ℤ) :
    ((List.range N).map (sortPermF N key)).Perm (List.range N) := by
  have he : (List.range N).map (sortPermF N key) = sortSlots N key := by
    apply List.ext_getElem
    · rw [List.length_map, List.length_range, sortSlots_length]
    · intro n h1 h2
      rw [List.getElem_map, List.getElem_range]
      rw [sortPermF_eq_getElem (by rw [List.length_map, List.length_range] at h1; exact h1)]
      rfl
  rw [he]
  exact sortSlots_perm N key

/-- Reindexing a guard-filtered mapped range by a permutation of the
range. -/
theorem reindex_filtered_map_perm (N : ℕ) (σf : ℕ → ℕ)
    (hperm : ((List.range N).map σf).Perm (List.range N))
    (q : ℕ → Prop) [DecidablePred q] (g : ℕ → V3) :
    (((List.range N).filter fun j => decide (q (σf j))).map fun j => g (σf j)).Perm
      (((List.range N).filter fun i => decide (q i)).map g) := by
  have h1 : (((List.range N).filter fun j => decide (q (σf j))).map fun j => g (σf j))
      = (((List.range N).map σf).filter fun i => decide (q i)).map g := by
    rw [List.filter_map, List.map_map]
    rfl
  rw [h1]
  exact (hperm.filter _).map g

/-- A nested per-cell/per-slot sum-and-count loop equals a flat loop
whenever the guard-filtered, summand-mapped index lists are permutations
of one another. -/
theorem pair_fold_eq_of_perm (VL : List ℤ) (ST EN : ℤ → ℤ) (l2 : List ℕ)
    {ps : ℕ → Prop} [DecidablePred ps] (fs : ℕ → V3)
    {p2 : ℕ → Prop} [DecidablePred p2] (f2 : ℕ → V3)
    (hperm : (((VL.flatMap fun c => slotRange (ST c) (EN c)).filter
        fun j => decide (ps j)).map fs).Perm
      ((l2.filter fun i => decide (p2 i)).map f2)) :
    VL.foldl (fun a c => (slotRange (ST c) (EN c)).foldl
        (fun a2 j => if ps j then (a2.1 + fs j, a2.2 + 1) else a2) a) ((0 : V3), (0 : ℕ))
      = l2.foldl (fun a i => if p2 i then (a.1 + f2 i, a.2 + 1) else a) ((0 : V3), (0 : ℕ)) := by
  rw [← foldl_flatMap, foldl_filter_sum_count, foldl_filter_sum_count]
  rw [Prod.mk.injEq]
  constructor
  · rw [hperm.sum_eq]
  · rw [← List.length_map _ fs, ← List.length_map _ f2, hperm.length_eq]

/-- The subtracting variant of `pair_fold_eq_of_perm` (rule 2). -/
theorem sub_fold_eq_of_perm (VL : List ℤ) (ST EN : ℤ → ℤ) (l2 : List ℕ)
    {ps : ℕ → Prop} [DecidablePred ps] (fs : ℕ → V3)
    {p2 : ℕ → Prop} [DecidablePred p2] (f2 : ℕ → V3)
    (hperm : (((VL.flatMap fun c => slotRange (ST c) (EN c)).filter
        fun j => decide (ps j)).map fs).Perm
      ((l2.filter fun i => decide (p2 i)).map f2)) :
    VL.foldl (fun a c => (slotRange (ST c) (EN c)).foldl
        (fun a2 j => if ps j then a2 - fs j else a2) a) (0 : V3)
      = l2.foldl (fun a i => if p2 i then a - f2 i else a) (0 : V3) := by
  rw [← foldl_flatMap, foldl_filter_sub, foldl_filter_sub, hperm.sum_eq]

/-- The scattered strategy's gathered, guard-filtered, summand-mapped
slot list is a permutation of the brute-force one: combines the core
permutation lemma with the sort-permutation reindexing. -/
theorem scattered_mapped_perm (N : ℕ) (pos : ℕ → V3) (start0 end0 : ℤ → ℤ) (i₀ : ℕ)
    (hb : ∀ i, i < N → ∀ a : Fin 3, -scene_scale ≤ pos i a ∧ pos i a ≤ scene_scale)
    (hi₀ : i₀ < N) (q : ℕ → Prop) [DecidablePred q]
    (hq5 : ∀ i, i < N → q i → gdist (pos i) (pos i₀) < 5) (g : ℕ → V3) :
    List.Perm
      ((((validNeighborList (pos i₀) gridMinimum gridInverseCellWidth gridSideCount
            (gridTables N (fun j => gridKeys pos (sortPermF N (gridKeys pos) j))
              start0 end0).1).flatMap
          fun c => slotRange
            ((gridTables N (fun j => gridKeys pos (sortPermF N (gridKeys pos) j))
              start0 end0).1 c)
            ((gridTables N (fun j => gridKeys pos (sortPermF N (gridKeys pos) j))
              start0 end0).2 c)).filter
        fun j => decide (q (sortPermF N (gridKeys pos) j))).map
        fun j => g (sortPermF N (gridKeys pos) j))
      (((List.range N).filter fun i => decide (q i)).map g) := by
  obtain ⟨j₀, hj₀N, hσj₀⟩ := @sortPermF_surj N (gridKeys pos) i₀ hi₀
  have hcore := gather_filter_perm N (fun j => pos (sortPermF N (gridKeys pos) j))
    (fun j => gridKeys pos (sortPermF N (gridKeys pos) j)) start0 end0 j₀
    (fun j _ => rfl)
    (sortPermF_sorted N (gridKeys pos))
    (fun j hj a => hb _ (sortPermF_lt hj) a)
    hj₀N
    (fun j => q (sortPermF N (gridKeys pos) j))
    (fun j hj hqj => by
      have h5 := hq5 _ (sortPermF_lt hj) hqj
      simpa [hσj₀] using h5)
  simp only [hσj₀] at hcore
  have hmapped := hcore.map (fun j => g (sortPermF N (gridKeys pos) j))
  refine hmapped.trans ?_
  exact reindex_filtered_map_perm N (sortPermF N (gridKeys pos))
    (range_map_sortPermF N (gridKeys pos)) q g

theorem scatteredRule1Term_grid_eq (N : ℕ) (start0 end0 : ℤ → ℤ) (pos : ℕ → V3)
    (hb : ∀ i, i < N → ∀ a : Fin 3, -scene_scale ≤ pos i a ∧ pos i a ≤ scene_scale)
    (i₀ : ℕ) (hi₀ : i₀ < N) :
    scatteredRule1Term gridSideCount gridMinimum gridInverseCellWidth
        (gridTables N (fun j => gridKeys pos (sortPermF N (gridKeys pos) j)) start0 end0).1
        (gridTables N (fun j => gridKeys pos (sortPermF N (gridKeys pos) j)) start0 end0).2
        (fun j => sortPermF N (gridKeys pos) j) pos i₀
      = rule1Term N i₀ pos := by
  have hperm := scattered_mapped_perm N pos start0 end0 i₀ hb hi₀
    (fun i => i ≠ i₀ ∧ gdist (pos i) (pos i₀) < rule1Distance)
    (fun i _ hq => lt_of_lt_of_le hq.2 (by norm_num [rule1Distance]))
    pos
  simp only [scatteredRule1Term, rule1Term, rule1Acc]
  rw [pair_fold_eq_of_perm _ _ _ _ _ _ hperm]

theorem scatteredRule2Term_grid_eq (N : ℕ) (start0 end0 : ℤ → ℤ) (pos : ℕ → V3)
    (hb : ∀ i, i < N → ∀ a : Fin 3, -scene_scale ≤ pos i a ∧ pos i a ≤ scene_scale)
    (i₀ : ℕ) (hi₀ : i₀ < N) :
    scatteredRule2Term gridSideCount gridMinimum gridInverseCellWidth
        (gridTables N (fun j => gridKeys pos (sortPermF N (gridKeys pos) j)) start0 end0).1
        (gridTables N (fun j => gridKeys pos (sortPermF N (gridKeys pos) j)) start0 end0).2
        (fun j => sortPermF N (gridKeys pos) j) pos i₀
      = rule2Term N i₀ pos := by
  have hperm := scattered_mapped_perm N pos start0 end0 i₀ hb hi₀
    (fun i => i ≠ i₀ ∧ gdist (pos i) (pos i₀) < rule2Distance)
    (fun i _ hq => lt_of_lt_of_le hq.2 (by norm_num [rule2Distance]))
    (fun i => pos i - pos i₀)
  simp only [scatteredRule2Term, rule2Term, rule2Acc]
  rw [sub_fold_eq_of_perm _ _ _ _ _ _ hperm]

theorem scatteredRule3Term_grid_eq (N : ℕ) (start0 end0 : ℤ → ℤ) (pos vel : ℕ → V3)
    (hb : ∀ i, i < N → ∀ a : Fin 3, -scene_scale ≤ pos i a ∧ pos i a ≤ scene_scale)
    (i₀ : ℕ) (hi₀ : i₀ < N) :
    scatteredRule3Term gridSideCount gridMinimum gridInverseCellWidth
        (gridTables N (fun j => gridKeys pos (sortPermF N (gridKeys pos) j)) start0 end0).1
        (gridTables N (fun j => gridKeys pos (sortPermF N (gridKeys pos) j)) start0 end0).2
        (fun j => sortPermF N (gridKeys pos) j) pos vel i₀
      = rule3Term N i₀ pos vel := by
  have hperm := scattered_mapped_perm N pos start0 end0 i₀ hb hi₀
    (fun i => i ≠ i₀ ∧ gdist (pos i) (pos i₀) < rule3Distance)
    (fun i _ hq => lt_of_lt_of_le hq.2 (by norm_num [rule3Distance]))
    vel
  simp only [scatteredRule3Term, rule3Term, rule3Acc]
  rw [pair_fold_eq_of_perm _ _ _ _ _ _ hperm]

/-- The scattered strategy's pre-clamp velocity coincides with the
brute-force one for in-bounds states. -/
theorem scatteredStepRaw_eq (N : ℕ) (start0 end0 : ℤ → ℤ) (s : SimState)
    (hb : ∀ i, i < N → ∀ a : Fin 3, -scene_scale ≤ s.pos i a ∧ s.pos i a ≤ scene_scale)
    (i₀ : ℕ) (hi₀ : i₀ < N) :
    scatteredStepRaw N start0 end0 s i₀ = computeVelocityChange N i₀ s.pos s.vel := by
  have hdecomp : scatteredStepRaw N start0 end0 s i₀
      = s.vel i₀
        + scatteredRule1Term gridSideCount gridMinimum gridInverseCellWidth
            (gridTables N (fun j => gridKeys s.pos (sortPermF N (gridKeys s.pos) j))
              start0 end0).1
            (gridTables N (fun j => gridKeys s.pos (sortPermF N (gridKeys s.pos) j))
              start0 end0).2
            (fun j => sortPermF N (gridKeys s.pos) j) s.pos i₀
        + scatteredRule2Term gridSideCount gridMinimum gridInverseCellWidth
            (gridTables N (fun j => gridKeys s.pos (sortPermF N (gridKeys s.pos) j))
              start0 end0).1
            (gridTables N (fun j => gridKeys s.pos (sortPermF N (gridKeys s.pos) j))
              start0 end0).2
            (fun j => sortPermF N (gridKeys s.pos) j) s.pos i₀
        + scatteredRule3Term gridSideCount gridMinimum gridInverseCellWidth
            (gridTables N (fun j => gridKeys s.pos (sortPermF N (gridKeys s.pos) j))
              start0 end0).1
            (gridTables N (fun j => gridKeys s.pos (sortPermF N (gridKeys s.pos) j))
              start0 end0).2
            (fun j => sortPermF N (gridKeys s.pos) j) s.pos s.vel i₀ := rfl
  rw [hdecomp, computeVelocityChange_eq,
    scatteredRule1Term_grid_eq N start0 end0 s.pos hb i₀ hi₀,
    scatteredRule2Term_grid_eq N start0 end0 s.pos hb i₀ hi₀,
    scatteredRule3Term_grid_eq N start0 end0 s.pos s.vel hb i₀ hi₀]

theorem coherent_mapped_perm (N : ℕ) (pos : ℕ → V3) (start0 end0 : ℤ → ℤ) (idx : ℕ)
    (hb : ∀ i, i < N → ∀ a : Fin 3, -scene_scale ≤ pos i a ∧ pos i a ≤ scene_scale)
    (hidx : idx < N) (q : ℕ → Prop) [DecidablePred q]
    (hq5 : ∀ j, j < N → q j →
      gdist (pos (sortPermF N (gridKeys pos) j)) (pos (sortPermF N (gridKeys pos) idx)) < 5)
    (g : ℕ → V3) :
    List.Perm
      ((((validNeighborList (pos (sortPermF N (gridKeys pos) idx)) gridMinimum
            gridInverseCellWidth gridSideCount
            (gridTables N (fun j => gridKeys pos (sortPermF N (gridKeys pos) j))
              start0 end0).1).flatMap
          fun c => slotRange
            ((gridTables N (fun j => gridKeys pos (sortPermF N (gridKeys pos) j))
              start0 end0).1 c)
            ((gridTables N (fun j => gridKeys pos (sortPermF N (gridKeys pos) j))
              start0 end0).2 c)).filter
        fun j => decide (q j)).map g)
      (((List.range N).filter fun j => decide (q j)).map g) :=
  (gather_filter_perm N (fun j => pos (sortPermF N (gridKeys pos) j))
    (fun j => gridKeys pos (sortPermF N (gridKeys pos) j)) start0 end0 idx
    (fun j _ => rfl)
    (sortPermF_sorted N (gridKeys pos))
    (fun j hj a => hb _ (sortPermF_lt hj) a)
    hidx q hq5).map g

theorem coherentRule1Term_grid_eq (N : ℕ) (start0 end0 : ℤ → ℤ) (pos : ℕ → V3)
    (hb : ∀ i, i < N → ∀ a : Fin 3, -scene_scale ≤ pos i a ∧ pos i a ≤ scene_scale)
    (idx : ℕ) (hidx : idx < N) :
    coherentRule1Term gridSideCount gridMinimum gridInverseCellWidth
        (gridTables N (fun j => gridKeys pos (sortPermF N (gridKeys pos) j)) start0 end0).1
        (gridTables N (fun j => gridKeys pos (sortPermF N (gridKeys pos) j)) start0 end0).2
        (fun j => pos (sortPermF N (gridKeys pos) j)) idx
      = rule1Term N idx (fun j => pos (sortPermF N (gridKeys pos) j)) := by
  have hperm := coherent_mapped_perm N pos start0 end0 idx hb hidx
    (fun j => j ≠ idx ∧
      gdist (pos (sortPermF N (gridKeys pos) j)) (pos (sortPermF N (gridKeys pos) idx))
        < rule1Distance)
    (fun j _ hq => lt_of_lt_of_le hq.2 (by norm_num [rule1Distance]))
    (fun j => pos (sortPermF N (gridKeys pos) j))
  simp only [coherentRule1Term, rule1Term, rule1Acc]
  rw [pair_fold_eq_of_perm _ _ _ _ _ _ hperm]

theorem coherentRule2Term_grid_eq (N : ℕ) (start0 end0 : ℤ → ℤ) (pos : ℕ → V3)
    (hb : ∀ i, i < N → ∀ a : Fin 3, -scene_scale ≤ pos i a ∧ pos i a ≤ scene_scale)
    (idx : ℕ) (hidx : idx < N) :
    coherentRule2Term gridSideCount gridMinimum gridInverseCellWidth
        (gridTables N (fun j => gridKeys pos (sortPermF N (gridKeys pos) j)) start0 end0).1
        (gridTables N (fun j => gridKeys pos (sortPermF N (gridKeys pos) j)) start0 end0).2
        (fun j => pos (sortPermF N (gridKeys pos) j)) idx
      = rule2Term N idx (fun j => pos (sortPermF N (gridKeys pos) j)) := by
  have hperm := coherent_mapped_perm N pos start0 end0 idx hb hidx
    (fun j => j ≠ idx ∧
      gdist (pos (sortPermF N (gridKeys pos) j)) (pos (sortPermF N (gridKeys pos) idx))
        < rule2Distance)
    (fun j _ hq => lt_of_lt_of_le hq.2 (by norm_num [rule2Distance]))
    (fun j => pos (sortPermF N (gridKeys pos) j) - pos (sortPermF N (gridKeys pos) idx))
  simp only [coherentRule2Term, rule2Term, rule2Acc]
  rw [sub_fold_eq_of_perm _ _ _ _ _ _ hperm]

theorem coherentRule3Term_grid_eq (N : ℕ) (start0 end0 : ℤ → ℤ) (pos vel : ℕ → V3)
    (hb : ∀ i, i < N → ∀ a : Fin 3, -scene_scale ≤ pos i a ∧ pos i a ≤ scene_scale)
    (idx : ℕ) (hidx : idx < N) :
    coherentRule3Term gridSideCount gridMinimum gridInverseCellWidth
        (gridTables N (fun j => gridKeys pos (sortPermF N (gridKeys pos) j)) start0 end0).1
        (gridTables N (fun j => gridKeys pos (sortPermF N (gridKeys pos) j)) start0 end0).2
        (fun j => pos (sortPermF N (gridKeys pos) j))
        (fun j => vel (sortPermF N (gridKeys pos) j)) idx
      = rule3Term N idx (fun j => pos (sortPermF N (gridKeys pos) j))
          (fun j => vel (sortPermF N (gridKeys pos) j)) := by
  have hperm := coherent_mapped_perm N pos start0 end0 idx hb hidx
    (fun j => j ≠ idx ∧
      gdist (pos (sortPermF N (gridKeys pos) j)) (pos (sortPermF N (gridKeys pos) idx))
        < rule3Distance)
    (fun j _ hq => lt_of_lt_of_le hq.2 (by norm_num [rule3Distance]))
    (fun j => vel (sortPermF N (gridKeys pos) j))
  simp only [coherentRule3Term, rule3Term, rule3Acc]
  rw [pair_fold_eq_of_perm _ _ _ _ _ _ hperm]

theorem pair_range_fold_reindex (N : ℕ) (σf : ℕ → ℕ)
    (hperm : ((List.range N).map σf).Perm (List.range N))
    (hinj : ∀ i j, i < N → j < N → σf i = σf j → i = j)
    (idx : ℕ) (hidx : idx < N) (D : ℕ → Prop) [DecidablePred D] (f : ℕ → V3) :
    (List.range N).foldl
        (fun a j => if j ≠ idx ∧ D (σf j) then (a.1 + f (σf j), a.2 + 1) else a)
        ((0 : V3), (0 : ℕ))
      = (List.range N).foldl
        (fun a i => if i ≠ σf idx ∧ D i then (a.1 + f i, a.2 + 1) else a)
        ((0 : V3), (0 : ℕ)) := by
  rw [foldl_filter_sum_count, foldl_filter_sum_count]
  have hc : ((List.range N).filter fun j => decide (j ≠ idx ∧ D (σf j)))
      = ((List.range N).filter fun j => decide (σf j ≠ σf idx ∧ D (σf j))) := by
    refine List.filter_congr fun x hx => ?_
    rw [List.mem_range] at hx
    rw [decide_eq_decide]
    constructor
    · rintro ⟨h1, h2⟩
      exact ⟨fun he => h1 (hinj x idx hx hidx he), h2⟩
    · rintro ⟨h1, h2⟩
      exact ⟨fun he => h1 (he ▸ rfl), h2⟩
  have hp := reindex_filtered_map_perm N σf hperm (fun i => i ≠ σf idx ∧ D i) f
  rw [Prod.mk.injEq]
  constructor
  · rw [hc]
    rw [hp.sum_eq]
  · rw [hc]
    rw [← List.length_map _ fun j => f (σf j), ← List.length_map _ f, hp.length_eq]

theorem sub_range_fold_reindex (N : ℕ) (σf : ℕ → ℕ)
    (hperm : ((List.range N).map σf).Perm (List.range N))
    (hinj : ∀ i j, i < N → j < N → σf i = σf j → i = j)
    (idx : ℕ) (hidx : idx < N) (D : ℕ → Prop) [DecidablePred D] (f : ℕ → V3) :
    (List.range N).foldl
        (fun a j => if j ≠ idx ∧ D (σf j) then a - f (σf j) else a) (0 : V3)
      = (List.range N).foldl
        (fun a i => if i ≠ σf idx ∧ D i then a - f i else a) (0 : V3) := by
  rw [foldl_filter_sub, foldl_filter_sub]
  have hc : ((List.range N).filter fun j => decide (j ≠ idx ∧ D (σf j)))
      = ((List.range N).filter fun j => decide (σf j ≠ σf idx ∧ D (σf j))) := by
    refine List.filter_congr fun x hx => ?_
    rw [List.mem_range] at hx
    rw [decide_eq_decide]
    constructor
    · rintro ⟨h1, h2⟩
      exact ⟨fun he => h1 (hinj x idx hx hidx he), h2⟩
    · rintro ⟨h1, h2⟩
      exact ⟨fun he => h1 (he ▸ rfl), h2⟩
  have hp := reindex_filtered_map_perm N σf hperm (fun i => i ≠ σf idx ∧ D i) f
  rw [hc, hp.sum_eq]

/-- Equivariance of the brute-force rule evaluator under a permutation
of the particle arrays. -/
theorem cvc_reindex (N : ℕ) (σf : ℕ → ℕ)
    (hperm : ((List.range N).map σf).Perm (List.range N))
    (hinj : ∀ i j, i < N → j < N → σf i = σf j → i = j)
    (idx : ℕ) (hidx : idx < N) (pos vel : ℕ → V3) :
    computeVelocityChange N idx (fun j => pos (σf j)) (fun j => vel (σf j))
      = computeVelocityChange N (σf idx) pos vel := by
  have h1 : rule1Acc N idx (fun j => pos (σf j)) = rule1Acc N (σf idx) pos := by
    simp only [rule1Acc]
    exact pair_range_fold_reindex N σf hperm hinj idx hidx
      (fun i => gdist (pos i) (pos (σf idx)) < rule1Distance) pos
  have h2 : rule2Acc N idx (fun j => pos (σf j)) = rule2Acc N (σf idx) pos := by
    simp only [rule2Acc]
    exact sub_range_fold_reindex N σf hperm hinj idx hidx
      (fun i => gdist (pos i) (pos (σf idx)) < rule2Distance)
      (fun i => pos i - pos (σf idx))
  have h3 : rule3Acc N idx (fun j => pos (σf j)) (fun j => vel (σf j))
      = rule3Acc N (σf idx) pos vel := by
    simp only [rule3Acc]
    exact pair_range_fold_reindex N σf hperm hinj idx hidx
      (fun i => gdist (pos i) (pos (σf idx)) < rule3Distance) vel
  rw [computeVelocityChange_eq, computeVelocityChange_eq]
  simp only [rule1Term, rule2Term, rule3Term, h1, h2, h3]

/-- The coherent strategy's pre-clamp velocity at sorted slot `idx`
coincides with the brute-force velocity of the original particle at that
slot, for in-bounds states. -/
theorem coherentStepRaw_eq (N : ℕ) (start0 end0 : ℤ → ℤ) (s : SimState)
    (hb : ∀ i, i < N → ∀ a : Fin 3, -scene_scale ≤ s.pos i a ∧ s.pos i a ≤ scene_scale)
    (idx : ℕ) (hidx : idx < N) :
    coherentStepRaw N start0 end0 s idx
      = computeVelocityChange N (sortPermF N (gridKeys s.pos) idx) s.pos s.vel := by
  have hdecomp : coherentStepRaw N start0 end0 s idx
      = (fun j => s.vel (sortPermF N (gridKeys s.pos) j)) idx
        + coherentRule1Term gridSideCount gridMinimum gridInverseCellWidth
            (gridTables N (fun j => gridKeys s.pos (sortPermF N (gridKeys s.pos) j))
              start0 end0).1
            (gridTables N (fun j => gridKeys s.pos (sortPermF N (gridKeys s.pos) j))
              start0 end0).2
            (fun j => s.pos (sortPermF N (gridKeys s.pos) j)) idx
        + coherentRule2Term gridSideCount gridMinimum gridInverseCellWidth
            (gridTables N (fun j => gridKeys s.pos (sortPermF N (gridKeys s.pos) j))
              start0 end0).1
            (gridTables N (fun j => gridKeys s.pos (sortPermF N (gridKeys s.pos) j))
              start0 end0).2
            (fun j => s.pos (sortPermF N (gridKeys s.pos) j)) idx
        + coherentRule3Term gridSideCount gridMinimum gridInverseCellWidth
            (gridTables N (fun j => gridKeys s.pos (sortPermF N (gridKeys s.pos) j))
              start0 end0).1
            (gridTables N (fun j => gridKeys s.pos (sortPermF N (gridKeys s.pos) j))
              start0 end0).2
            (fun j => s.pos (sortPermF N (gridKeys s.pos) j))
            (fun j => s.vel (sortPermF N (gridKeys s.pos) j)) idx := rfl
  rw [hdecomp,
    coherentRule1Term_grid_eq N start0 end0 s.pos hb idx hidx,
    coherentRule2Term_grid_eq N start0 end0 s.pos hb idx hidx,
    coherentRule3Term_grid_eq N start0 end0 s.pos s.vel hb idx hidx,
    ← cvc_reindex N (sortPermF N (gridKeys s.pos)) (range_map_sortPermF N (gridKeys s.pos))
      (fun i j hi hj he => sortPermF_inj hi hj he) idx hidx s.pos s.vel,
    computeVelocityChange_eq N idx (fun j => s.pos (sortPermF N (gridKeys s.pos) j))
      (fun j => s.vel (sortPermF N (gridKeys s.pos) j))]

theorem clampGrid_eq_clampBrute (v : V3) :
    (if glen v > maxSpeed then maxSpeed • glmNormalize v else v)
      = (if glen v ≤ maxSpeed then v else maxSpeed • glmNormalize v) := by
  by_cases h : glen v ≤ maxSpeed
  · rw [if_neg (not_lt.mpr h), if_pos h]
  · rw [if_pos (lt_of_not_le h), if_neg h]

/-- C1: for the same in-bounds state, one step of the scattered-grid
strategy assigns every particle the same post-step velocity as the
brute-force step, and one step of the coherent-grid strategy assigns
sorted slot `j` the brute-force post-step velocity of the original
particle `σ j` occupying that slot (σ the sort-by-grid-index
permutation) — so all three strategies produce, per particle, identical
post-step velocities (exactly, in the exact-arithmetic model). -/
theorem cross_strategy_equivalence (N : ℕ) (dt : ℝ) (start0 end0 : ℤ → ℤ) (s : SimState)
    (hb : ∀ i, i < N → ∀ a : Fin 3, -scene_scale ≤ s.pos i a ∧ s.pos i a ≤ scene_scale) :
    (∀ i, i < N →
      (stepSimulationScatteredGrid N dt start0 end0 s).vel i
        = (stepSimulationNaive N dt s).vel i) ∧
    (∀ j, j < N →
      (stepSimulationCoherentGrid N dt start0 end0 s).vel j
        = (stepSimulationNaive N dt s).vel (sortPermF N (gridKeys s.pos) j)) := by
  constructor
  · intro i hi
    rw [stepScattered_vel_eq, stepNaive_vel_apply, kernUpdateVelocityBruteForce_eq,
      scatteredStepRaw_eq N start0 end0 s hb i hi, clampGrid_eq_clampBrute]
  · intro j hj
    rw [stepCoherent_vel_eq, stepNaive_vel_apply, kernUpdateVelocityBruteForce_eq,
      coherentStepRaw_eq N start0 end0 s hb j hj, clampGrid_eq_clampBrute]

/-- Witness for C1 at a concrete in-bounds two-particle state. -/
theorem cross_strategy_equivalence_witness :
    (stepSimulationScatteredGrid 2 1 (fun _ => 0) (fun _ => 0) ⟨posAB, velAB⟩).vel 0
        = (stepSimulationNaive 2 1 ⟨posAB, velAB⟩).vel 0 ∧
      (stepSimulationCoherentGrid 2 1 (fun _ => 0) (fun _ => 0) ⟨posAB, velAB⟩).vel 1
        = (stepSimulationNaive 2 1 ⟨posAB, velAB⟩).vel (sortPermF 2 (gridKeys posAB) 1) := by
  have hb : ∀ i, i < 2 → ∀ a : Fin 3, -scene_scale ≤ posAB i a ∧ posAB i a ≤ scene_scale := by
    intro i hi a
    interval_cases i <;> fin_cases a <;> simp [posAB, scene_scale] <;> norm_num
  exact ⟨(cross_strategy_equivalence 2 1 (fun _ => 0) (fun _ => 0) ⟨posAB, velAB⟩ hb).1 0
      (by norm_num),
    (cross_strategy_equivalence 2 1 (fun _ => 0) (fun _ => 0) ⟨posAB, velAB⟩ hb).2 1
      (by norm_num)⟩

end
